import Mathlib

/-!
Verification development for the `vine` promise/barrier library
(`vine/promises.py`, `vine/synchronization.py`, `vine/types.py`).

The Python code is shallowly embedded as a fuel-indexed interpreter over an
explicit heap of objects, because promise graphs share mutable objects (a
barrier is referenced by every upstream promise that fires into it).

* `Val` models the Python values flowing through promises; `Exc` models the
  exceptions (`ValueError`, `AttributeError`, ... , plus user exceptions).
* `Obj` models a heap object: a `promise` instance (`PromObj`, whose fields
  mirror `promise.__slots__`), a `barrier` instance (`BarObj`, whose fields
  mirror the attributes set in `barrier.__init__`; `ready`/`failed`/
  `cancelled` are the `ThenableProxy` properties delegating to the inner
  promise and are therefore not stored), or a plain callable (`Obj.plain`).
* Machine operations (`callRef`, `thenRef`, `throwRef`, `throw1Ref`,
  `cancelRef`, and the barrier methods) return `Option (Heap × List Event ×
  Except Exc α)`: `none` means the fuel ran out, `Except.error e` models an
  exception propagating to the caller, and the `Event` trace records every
  object invocation (Python's `obj(*args, **kwargs)`) with its arguments.
* The ambient Python exception (`sys.exc_info()[1]`) is threaded explicitly
  as the `cur : Option Exc` arguments.
-/

namespace Vine

/-- Exceptions raised/propagated by the embedded code. -/
inductive Exc where
  | valueError (msg : String)
  | attributeError (msg : String)
  | typeError (msg : String)
  | runtimeError (msg : String)
  | keyError (msg : String)
  | userExc (n : Nat)
deriving DecidableEq, Repr

/-- Python values forwarded through promises (`None`, ints, strings, and
exception objects, which occur because `throw1` passes the reason as a
positional argument to the error handler). -/
inductive Val where
  | none
  | nat (n : Nat)
  | str (s : String)
  | exc (e : Exc)
deriving DecidableEq, Repr

/-- Keyword-argument dictionaries, as association lists (`dict` semantics are
recovered by `dictSet`/`dictMerge` below). -/
abbrev KW := List (String × Val)

/-- A plain Python callable's behaviour: positional args and kwargs to a
returned value or a raised exception. -/
def Fn := List Val → KW → Except Exc Val

/-- Heap references (Python object identities). -/
abbrev Ref := Nat

/-- Fields of a `promise` instance, mirroring `promise.__slots__`
(`promises.py` lines 80-84).  `fn` is `self.fun` (a reference, since filters
and callbacks can themselves be promises), `sv` is `_svpending`, `lv` is
`_lvpending`, `onError` is `on_error`. -/
structure PromObj where
  fn : Option Ref
  args : List Val
  kwargs : KW
  ready : Bool
  failed : Bool
  cancelled : Bool
  value : Option (List Val × KW)
  reason : Option Exc
  sv : Option Ref
  lv : Option (List Ref)
  onError : Option Ref
deriving DecidableEq, Repr

/-- Fields of a `barrier` instance (`synchronization.py` lines 44-52).
`pRef` is the internal promise installed by `_set_promise_target`;
`bvalue` is `self._value`.  The `ready`/`failed`/`cancelled` attributes are
`ThenableProxy` properties reading/writing the internal promise, so they are
not stored here. -/
structure BarObj where
  pRef : Ref
  args : List Val
  kwargs : KW
  bvalue : Nat
  size : Nat
  finalized : Bool
deriving DecidableEq, Repr

/-- A heap object: a promise, a barrier, or a plain (non-`Thenable`)
callable. -/
inductive Obj where
  | prom (o : PromObj)
  | barr (o : BarObj)
  | plain (g : Fn)

/-- The heap: an association list from references to objects. -/
abbrev Heap := List (Ref × Obj)

/-- Trace events: `call r args kwargs` records that the object at `r` was
invoked as `obj(*args, **kwargs)`. -/
inductive Event where
  | call (r : Ref) (args : List Val) (kwargs : KW)
deriving DecidableEq, Repr

/-- Heap lookup (first binding wins). -/
def hGet : Heap → Ref → Option Obj
  | [], _ => Option.none
  | (k, o) :: t, r => if r = k then some o else hGet t r

/-- Heap update; appends a fresh binding when the reference is absent. -/
def hSet : Heap → Ref → Obj → Heap
  | [], r, o => [(r, o)]
  | (k, x) :: t, r, o => if r = k then (r, o) :: t else (k, x) :: hSet t r o

/-- Domain of the heap. -/
def heapDom (h : Heap) : List Ref := h.map Prod.fst

/-- A reference strictly larger than everything in the heap; used to model
allocation of a fresh Python object. -/
def freshRef (h : Heap) : Ref := (heapDom h).foldr (fun a b => Nat.max a b) 0 + 1

/-- The promise fields stored at `r`, if `r` holds a promise. -/
def promAt (h : Heap) (r : Ref) : Option PromObj :=
  match hGet h r with
  | some (.prom o) => some o
  | _ => Option.none

/-- The barrier fields stored at `r`, if `r` holds a barrier. -/
def barrAt (h : Heap) (r : Ref) : Option BarObj :=
  match hGet h r with
  | some (.barr o) => some o
  | _ => Option.none

/-- `d[k] = v` with Python `dict` semantics: replace an existing key in
place, otherwise append. -/
def dictSet (d : KW) (k : String) (v : Val) : KW :=
  if d.any (fun p => p.1 = k) then
    d.map (fun p => if p.1 = k then (k, v) else p)
  else d ++ [(k, v)]

/-- `dict(d, **e)`: copy `d`, then update with every entry of `e`
(call-time keyword arguments override bound ones on key collision). -/
def dictMerge (d e : KW) : KW := e.foldl (fun acc p => dictSet acc p.1 p.2) d

/-- The reason passed on to the error handler: `None` when the exception
slot is empty (Python would pass `None`). -/
def optExcVal : Option Exc → Val
  | some e => .exc e
  | Option.none => .none

/-- A freshly constructed bare `promise()` (`promise.__init__` defaults). -/
def bareProm : PromObj :=
  { fn := Option.none, args := [], kwargs := [], ready := false,
    failed := false, cancelled := false, value := Option.none,
    reason := Option.none, sv := Option.none, lv := Option.none,
    onError := Option.none }

/-- The wrapper built by `promise.then` line 170:
`promise(callback, on_error=on_error)` — a function-backed promise whose
`fun` is the given callback. -/
def mkWrapper (cb : Ref) (onErr : Option Ref) : PromObj :=
  { bareProm with fn := some cb, onError := onErr }

/-- Lines 128-129 of `promise.__call__`:
`final_args = self.args + args if args else self.args`. -/
def mergeArgs (bound call : List Val) : List Val :=
  if call.isEmpty then bound else bound ++ call

/-- Lines 130-131 of `promise.__call__`:
`final_kwargs = dict(self.kwargs, **kwargs) if kwargs else self.kwargs`. -/
def mergeKW (bound call : KW) : KW :=
  if call.isEmpty then bound else dictMerge bound call

/-- The `isinstance(p, Thenable)` test used by `promise.then`:
`Thenable.__subclasshook__` accepts any class with a `then` in its MRO, so
promise and barrier instances qualify and plain callables do not. -/
def isThenableAt (h : Heap) (r : Ref) : Bool :=
  match hGet h r with
  | some (.prom _) => true
  | some (.barr _) => true
  | _ => false

end Vine

namespace Vine

/-!
## The interpreter

A fuel-indexed interpreter for the `promise` methods (`__call__`, `then`,
`throw`, `throw1`, `cancel`) and `barrier.__call__`.  The mutually
recursive Python methods are embedded as one structurally recursive
function `exec` over an operation code `Op` (one constructor per method,
plus the internal dispatch/loop positions of `promise.__call__`,
`promise.throw` and `promise.cancel`), so that every run reduces
definitionally.  Every inner step consumes one unit of fuel; `none` means
the fuel ran out.  `ThenableProxy` delegation (`barrier.then/throw/throw1/
cancel` and the `ready`/`failed`/`cancelled` properties) is expanded at
each use site, reading or writing the barrier's internal promise.
-/

/-- Result of an operation: a Python return value (`val`), nothing
(`unit`, for methods returning `None` whose value is unused), or an
object reference (`ref`, for `then`, which returns the attached
continuation). -/
inductive Out where
  | val (x : Option Val)
  | unit
  | ref (x : Ref)
deriving DecidableEq, Repr

/-- The return value of an invocation (`Out.val`); used for `retval` in
`promise.__call__`. -/
def outVal : Out → Option Val
  | .val x => x
  | _ => Option.none

/-- Operation codes for `exec`. -/
inductive Op where
  | callO (r : Ref) (args : List Val) (kw : KW)
  | dispatchO (r : Ref) (ca : List Val) (ck : KW) (ret : Option Val)
  | lvO (r : Ref) (q : List Ref) (ca : List Val) (ck : KW)
  | throwO (r : Ref) (exc? : Option Exc) (cur : Option Exc) (prop : Bool)
  | throw1O (r : Ref) (exc? : Option Exc) (cur : Option Exc)
  | t1LoopO (r : Ref) (q : List Ref) (excF : Option Exc) (cur : Option Exc)
  | cancelO (r : Ref)
  | cLoopO (q : List Ref)
  | thenO (r : Ref) (cb : Ref) (onErr? : Option Ref) (cur : Option Exc)

/-- The interpreter.  Branches:

* `.callO r args kw` — `obj(*args, **kwargs)`: `promise.__call__`
  (promises.py lines 122-164), `barrier.__call__` (synchronization.py
  lines 67-72), or a plain callable.  Returns `ok (.val x)` where `x` is
  the Python return value.
* `.dispatchO` — lines 148-164 of `promise.__call__`: record `self.value`,
  set `self.ready`, dispatch `(ca, ck)` to the single-slot listener or the
  queued listeners, clearing the slot/queue in the `finally` blocks.
* `.lvO` — the `while lvpending: p = lvpending.popleft(); p(*ca, **ck)`
  loop; the deque is the very object stored in `self._lvpending`, so the
  remainder is written back before each listener runs.
* `.throwO` — `promise.throw` (lines 196-221) with `tb=None`; `exc?` is
  the `exc` argument, `cur` the ambient exception (`sys.exc_info()[1]`),
  `prop` the `propagate` flag; an `error` outcome is the exception
  (re-)raised to the caller.
* `.throw1O` — `promise.throw1` (lines 189-194), also used for the
  `svpending.throw1(exc)` forwarding in `throw`; on a plain callable the
  attribute access raises `AttributeError`.
* `.t1LoopO` — the `while lvpending: lvpending.popleft().throw1(exc)`
  loop of `throw`, with the same deque write-back as `.lvO`.
* `.cancelO` — `promise.cancel` (lines 109-120): set the flag, recursively
  cancel the single-slot listener, every queued listener, and the error
  handler when it is a `Thenable`; the `finally` always releases all three
  references.
* `.cLoopO` — `for pending in self._lvpending: pending.cancel()`.
* `.thenO` — `promise.then` (lines 166-187) with ambient exception `cur`:
  wrap the callback in `promise(callback, on_error=on_error)` when
  `isinstance(p, Thenable)` holds, replay a stored outcome, then store the
  continuation in the single slot or migrate to the queue; returns
  `ok (.ref p)` for the reference `then` returns. -/
def exec : Nat → Heap → Op → Option (Heap × List Event × Except Exc Out)
  | 0, _, _ => Option.none
  | fuel+1, h, .callO r args kw =>
    match hGet h r with
    | Option.none => Option.none
    | some (.plain g) =>
        some (h, [.call r args kw],
          match g args kw with
          | .ok v => .ok (.val (some v))
          | .error e => .error e)
    | some (.barr o) =>
        -- barrier.__call__: `if not self.ready and not self.cancelled`
        -- (both read from the internal promise via ThenableProxy).
        match promAt h o.pRef with
        | Option.none => Option.none
        | some ip =>
          if !ip.ready && !ip.cancelled then
            let o' : BarObj := { o with bvalue := o.bvalue + 1 }
            let h1 := hSet h r (.barr o')
            if o'.finalized && decide (o'.size ≤ o'.bvalue) then
              -- `self.ready = True` writes the internal promise's flag,
              -- then `self.p(*self.args, **self.kwargs)` fires it.
              match promAt h1 o.pRef with
              | Option.none => Option.none
              | some ip1 =>
                match exec fuel (hSet h1 o.pRef (.prom { ip1 with ready := true }))
                    (.callO o.pRef o.args o.kwargs) with
                | Option.none => Option.none
                | some (h2, tr, out) =>
                    some (h2, .call r args kw :: tr,
                      match out with
                      | .ok _ => .ok (.val Option.none)
                      | .error e => .error e)
            else some (h1, [.call r args kw], .ok (.val Option.none))
          else some (h, [.call r args kw], .ok (.val Option.none))
    | some (.prom o) =>
        if o.cancelled then some (h, [.call r args kw], .ok (.val Option.none))
        else
          let fa := mergeArgs o.args args
          let fk := mergeKW o.kwargs kw
          match o.fn with
          | some fr =>
              match exec fuel h (.callO fr fa fk) with
              | Option.none => Option.none
              | some (h1, tr1, .error e) =>
                  -- `except Exception: return self.throw()` with the raised
                  -- exception as the ambient one.
                  match exec fuel h1 (.throwO r Option.none (some e) true) with
                  | Option.none => Option.none
                  | some (h2, tr2, st) =>
                      some (h2, .call r args kw :: (tr1 ++ tr2),
                        match st with
                        | .ok _ => .ok (.val Option.none)
                        | .error e2 => .error e2)
              | some (h1, tr1, .ok out1) =>
                  let retv := (outVal out1).getD Val.none
                  match exec fuel h1 (.dispatchO r [retv] ([] : KW) (some retv)) with
                  | Option.none => Option.none
                  | some (h2, tr2, out) =>
                      some (h2, .call r args kw :: (tr1 ++ tr2), out)
          | Option.none =>
              match exec fuel h (.dispatchO r fa fk Option.none) with
              | Option.none => Option.none
              | some (h2, tr2, out) =>
                  some (h2, .call r args kw :: tr2, out)
  | fuel+1, h, .dispatchO r ca ck ret =>
    match promAt h r with
    | Option.none => Option.none
    | some o1 =>
      let h1 := hSet h r (.prom { o1 with value := some (ca, ck), ready := true })
      match o1.sv with
      | some s =>
          match exec fuel h1 (.callO s ca ck) with
          | Option.none => Option.none
          | some (h2, tr2, out2) =>
              match promAt h2 r with
              | Option.none => Option.none
              | some o3 =>
                some (hSet h2 r (.prom { o3 with sv := Option.none }), tr2,
                  match out2 with
                  | .ok _ => .ok (.val ret)
                  | .error e => .error e)
      | Option.none =>
          match o1.lv with
          | some q =>
              match exec fuel h1 (.lvO r q ca ck) with
              | Option.none => Option.none
              | some (h2, tr2, st) =>
                  match promAt h2 r with
                  | Option.none => Option.none
                  | some o3 =>
                    some (hSet h2 r (.prom { o3 with lv := Option.none }), tr2,
                      match st with
                      | .ok _ => .ok (.val ret)
                      | .error e => .error e)
          | Option.none =>
              -- empty queue: the `while` is skipped and the `finally`
              -- still assigns `self._lvpending = None`.
              some (hSet h1 r
                  (.prom { o1 with value := some (ca, ck), ready := true, lv := Option.none }),
                [], .ok (.val ret))
  | _+1, h, .lvO _ [] _ _ => some (h, [], .ok .unit)
  | fuel+1, h, .lvO r (l :: rest) ca ck =>
    match promAt h r with
    | Option.none => Option.none
    | some o =>
      let h0 := hSet h r (.prom { o with lv := some rest })
      match exec fuel h0 (.callO l ca ck) with
      | Option.none => Option.none
      | some (h1, tr1, .error e) => some (h1, tr1, .error e)
      | some (h1, tr1, .ok _) =>
          match exec fuel h1 (.lvO r rest ca ck) with
          | Option.none => Option.none
          | some (h2, tr2, st) => some (h2, tr1 ++ tr2, st)
  | fuel+1, h, .throwO r exc? cur prop =>
    match hGet h r with
    | Option.none => Option.none
    | some (.plain _) => some (h, [], .error (.attributeError "throw"))
    | some (.barr o) => exec fuel h (.throwO o.pRef exc? cur prop)
    | some (.prom o) =>
      if o.cancelled then some (h, [], .ok .unit)
      else
        let excF : Option Exc := match exc? with
          | some e => some e
          | Option.none => cur
        -- try body: `self.throw1(exc)`, then forward `throw1` to the
        -- single listener or the queued listeners, clearing the slot/queue.
        match exec fuel h (.throw1O r excF cur) with
        | Option.none => Option.none
        | some (h1, tr1, st1) =>
          let body : Option (Heap × List Event × Except Exc Out) :=
            match st1 with
            | .error e1 => some (h1, tr1, .error e1)
            | .ok _ =>
              match promAt h1 r with
              | Option.none => Option.none
              | some o1 =>
                match o1.sv with
                | some s =>
                    match exec fuel h1 (.throw1O s excF cur) with
                    | Option.none => Option.none
                    | some (h2, tr2, st2) =>
                        match promAt h2 r with
                        | Option.none => Option.none
                        | some o2 =>
                          some (hSet h2 r (.prom { o2 with sv := Option.none }),
                            tr1 ++ tr2, st2)
                | Option.none =>
                    match o1.lv with
                    | some q =>
                        match exec fuel h1 (.t1LoopO r q excF cur) with
                        | Option.none => Option.none
                        | some (h2, tr2, st2) =>
                            match promAt h2 r with
                            | Option.none => Option.none
                            | some o2 =>
                              some (hSet h2 r (.prom { o2 with lv := Option.none }),
                                tr1 ++ tr2, st2)
                    | Option.none =>
                        some (hSet h1 r (.prom { o1 with lv := Option.none }),
                          tr1, .ok .unit)
          match body with
          | Option.none => Option.none
          | some (hB, trB, stB) =>
            -- outer finally: `if self.on_error is None and propagate: raise`
            match promAt hB r with
            | Option.none => Option.none
            | some oB =>
              if oB.onError.isNone && prop then
                -- `if tb is None and (exc is None or exc is current_exc)`:
                -- with tb=None this holds when no explicit exc was passed
                -- or the passed exc is the ambient one; then a bare `raise`
                -- re-raises the active exception.
                let bare : Bool := exc?.isNone || decide (exc? = cur)
                let raised : Exc :=
                  if bare then
                    match stB with
                    | .error e2 => e2
                    | .ok _ =>
                      match cur with
                      | some c => c
                      | Option.none => .runtimeError "No active exception to re-raise"
                  else
                    match excF with
                    | some e => e
                    | Option.none => .runtimeError "No active exception to re-raise"
                some (hB, trB, .error raised)
              else some (hB, trB, stB)
  | fuel+1, h, .throw1O r exc? cur =>
    match hGet h r with
    | Option.none => Option.none
    | some (.plain _) => some (h, [], .error (.attributeError "throw1"))
    | some (.barr o) => exec fuel h (.throw1O o.pRef exc? cur)
    | some (.prom o) =>
      if o.cancelled then some (h, [], .ok .unit)
      else
        let e' : Option Exc := match exc? with
          | some e => some e
          | Option.none => cur
        let h1 := hSet h r (.prom { o with failed := true, reason := e' })
        match o.onError with
        | Option.none => some (h1, [], .ok .unit)
        | some oe =>
            match exec fuel h1 (.callO oe (o.args ++ [optExcVal e']) o.kwargs) with
            | Option.none => Option.none
            | some (h2, tr2, out2) =>
                some (h2, tr2,
                  match out2 with
                  | .ok _ => .ok .unit
                  | .error e => .error e)
  | _+1, h, .t1LoopO _ [] _ _ => some (h, [], .ok .unit)
  | fuel+1, h, .t1LoopO r (l :: rest) excF cur =>
    match promAt h r with
    | Option.none => Option.none
    | some o =>
      let h0 := hSet h r (.prom { o with lv := some rest })
      match exec fuel h0 (.throw1O l excF cur) with
      | Option.none => Option.none
      | some (h1, tr1, .error e) => some (h1, tr1, .error e)
      | some (h1, tr1, .ok _) =>
          match exec fuel h1 (.t1LoopO r rest excF cur) with
          | Option.none => Option.none
          | some (h2, tr2, st) => some (h2, tr1 ++ tr2, st)
  | fuel+1, h, .cancelO r =>
    match hGet h r with
    | Option.none => Option.none
    | some (.plain _) => some (h, [], .error (.attributeError "cancel"))
    | some (.barr o) => exec fuel h (.cancelO o.pRef)
    | some (.prom o) =>
      let h0 := hSet h r (.prom { o with cancelled := true })
      let stepA : Option (Heap × List Event × Except Exc Out) :=
        match o.sv with
        | some s => exec fuel h0 (.cancelO s)
        | Option.none => some (h0, [], .ok .unit)
      match stepA with
      | Option.none => Option.none
      | some (hA, trA, stA) =>
        let stepB : Option (Heap × List Event × Except Exc Out) :=
          match stA with
          | .error e => some (hA, trA, .error e)
          | .ok _ =>
            match o.lv with
            | some q =>
                match exec fuel hA (.cLoopO q) with
                | Option.none => Option.none
                | some (hB, trB, stB) => some (hB, trA ++ trB, stB)
            | Option.none => some (hA, trA, .ok .unit)
        match stepB with
        | Option.none => Option.none
        | some (hB, trB, stB) =>
          let stepC : Option (Heap × List Event × Except Exc Out) :=
            match stB with
            | .error e => some (hB, trB, .error e)
            | .ok _ =>
              match o.onError with
              | some oe =>
                  if isThenableAt hB oe then
                    match exec fuel hB (.cancelO oe) with
                    | Option.none => Option.none
                    | some (hC, trC, stC) => some (hC, trB ++ trC, stC)
                  else some (hB, trB, .ok .unit)
              | Option.none => some (hB, trB, .ok .unit)
          match stepC with
          | Option.none => Option.none
          | some (hC, trC, stC) =>
            -- finally: release the references.
            match promAt hC r with
            | Option.none => Option.none
            | some oF =>
              some (hSet hC r (.prom { oF with sv := Option.none, lv := Option.none, onError := Option.none }),
                trC, stC)
  | _+1, h, .cLoopO [] => some (h, [], .ok .unit)
  | fuel+1, h, .cLoopO (l :: rest) =>
    match exec fuel h (.cancelO l) with
    | Option.none => Option.none
    | some (h1, tr1, .error e) => some (h1, tr1, .error e)
    | some (h1, tr1, .ok _) =>
        match exec fuel h1 (.cLoopO rest) with
        | Option.none => Option.none
        | some (h2, tr2, st) => some (h2, tr1 ++ tr2, st)
  | fuel+1, h, .thenO r cb onErr? cur =>
    match hGet h r with
    | Option.none => Option.none
    | some (.plain _) => some (h, [], .error (.attributeError "then"))
    | some (.barr o) => exec fuel h (.thenO o.pRef cb onErr? cur)
    | some (.prom o) =>
      let wrap := isThenableAt h cb
      let w := freshRef h
      let p : Ref := if wrap then w else cb
      let h1 := if wrap then hSet h w (.prom (mkWrapper cb onErr?)) else h
      if o.cancelled then
        match exec fuel h1 (.cancelO p) with
        | Option.none => Option.none
        | some (h2, tr2, st) =>
            some (h2, tr2,
              match st with
              | .ok _ => .ok (.ref p)
              | .error e => .error e)
      else
        let replay : Option (Heap × List Event × Except Exc Out) :=
          if o.failed then
            exec fuel h1 (.throwO p o.reason cur true)
          else if o.ready then
            match o.value with
            | some (va, ks) => exec fuel h1 (.callO p va ks)
            | Option.none =>
                some (h1, [], .error (.typeError "cannot unpack None"))
          else some (h1, [], .ok .unit)
        match replay with
        | Option.none => Option.none
        | some (h2, tr2, .error e) => some (h2, tr2, .error e)
        | some (h2, tr2, .ok _) =>
            match promAt h2 r with
            | Option.none => Option.none
            | some o2 =>
              match o2.lv with
              | Option.none =>
                  match o2.sv with
                  | some s =>
                      -- migrate the single slot to a queue, then append.
                      some (hSet h2 r (.prom { o2 with sv := Option.none, lv := some [s, p] }),
                        tr2, .ok (.ref p))
                  | Option.none =>
                      some (hSet h2 r (.prom { o2 with sv := some p }),
                        tr2, .ok (.ref p))
              | some q =>
                  some (hSet h2 r (.prom { o2 with lv := some (q ++ [p]) }),
                    tr2, .ok (.ref p))

/-- `promise.__call__` / `barrier.__call__` / plain invocation. -/
def callRef (fuel : Nat) (h : Heap) (r : Ref) (args : List Val) (kw : KW) :
    Option (Heap × List Event × Except Exc Out) :=
  exec fuel h (.callO r args kw)

/-- The value-recording/dispatch tail of `promise.__call__`. -/
def dispatchRef (fuel : Nat) (h : Heap) (r : Ref) (ca : List Val) (ck : KW)
    (ret : Option Val) : Option (Heap × List Event × Except Exc Out) :=
  exec fuel h (.dispatchO r ca ck ret)

/-- The listener-queue dispatch loop of `promise.__call__`. -/
def lvLoop (fuel : Nat) (h : Heap) (r : Ref) (q : List Ref) (ca : List Val)
    (ck : KW) : Option (Heap × List Event × Except Exc Out) :=
  exec fuel h (.lvO r q ca ck)

/-- `promise.throw` (with `tb=None`). -/
def throwRef (fuel : Nat) (h : Heap) (r : Ref) (exc? cur : Option Exc)
    (prop : Bool) : Option (Heap × List Event × Except Exc Out) :=
  exec fuel h (.throwO r exc? cur prop)

/-- `promise.throw1`. -/
def throw1Ref (fuel : Nat) (h : Heap) (r : Ref) (exc? cur : Option Exc) :
    Option (Heap × List Event × Except Exc Out) :=
  exec fuel h (.throw1O r exc? cur)

/-- `promise.cancel`. -/
def cancelRef (fuel : Nat) (h : Heap) (r : Ref) :
    Option (Heap × List Event × Except Exc Out) :=
  exec fuel h (.cancelO r)

/-- `promise.then`, called with the ambient exception `cur`. -/
def thenRef (fuel : Nat) (h : Heap) (r cb : Ref) (onErr? : Option Ref)
    (cur : Option Exc) : Option (Heap × List Event × Except Exc Out) :=
  exec fuel h (.thenO r cb onErr? cur)

end Vine

namespace Vine

/-!
## Barrier methods

`barrier.add_noincr`, `add`, `extend_noincr`, `extend`, `finalize` and the
constructor (`barrier.__init__`), from `synchronization.py`.  They read the
`ready`/`cancelled` properties from the internal promise and call
`p.then(self)` on upstream promises via `thenRef`.
-/

/-- `barrier.add_noincr` (synchronization.py lines 84-89): reject when
already `ready`, otherwise subscribe the barrier to `p` via `p.then(self)`.
(`return p` always returns the argument, so only the outcome is kept.) -/
def baddNoincr (fuel : Nat) (h : Heap) (b p : Ref) :
    Option (Heap × List Event × Except Exc Unit) :=
  match hGet h b with
  | some (.barr o) =>
      match promAt h o.pRef with
      | some ip =>
          if !ip.cancelled then
            if ip.ready then
              some (h, [], .error (.valueError "Cannot add promise to full barrier"))
            else
              match thenRef fuel h p b Option.none Option.none with
              | Option.none => Option.none
              | some (h1, tr1, st) =>
                  some (h1, tr1,
                    match st with
                    | .ok _ => .ok ()
                    | .error e => .error e)
          else some (h, [], .ok ())
      | Option.none => Option.none
  | _ => Option.none

/-- `barrier.add` (lines 79-82): `add_noincr(p)` then `self.size += 1`
(skipped when the `ValueError` aborts, and entirely skipped when
cancelled). -/
def badd (fuel : Nat) (h : Heap) (b p : Ref) :
    Option (Heap × List Event × Except Exc Unit) :=
  match hGet h b with
  | some (.barr o) =>
      match promAt h o.pRef with
      | some ip =>
          if !ip.cancelled then
            match baddNoincr fuel h b p with
            | Option.none => Option.none
            | some (h1, tr1, .error e) => some (h1, tr1, .error e)
            | some (h1, tr1, .ok _) =>
                match hGet h1 b with
                | some (.barr o1) =>
                    some (hSet h1 b (.barr { o1 with size := o1.size + 1 }), tr1, .ok ())
                | _ => Option.none
          else some (h, [], .ok ())
      | Option.none => Option.none
  | _ => Option.none

/-- The `[self.add_noincr(p) for p in promises]` comprehension: the first
exception aborts the remaining attachments. -/
def baddLoop (fuel : Nat) (h : Heap) (b : Ref) :
    List Ref → Option (Heap × List Event × Except Exc Unit)
  | [] => some (h, [], .ok ())
  | p :: rest =>
      match baddNoincr fuel h b p with
      | Option.none => Option.none
      | some (h1, tr1, .error e) => some (h1, tr1, .error e)
      | some (h1, tr1, .ok _) =>
          match baddLoop fuel h1 b rest with
          | Option.none => Option.none
          | some (h2, tr2, st) => some (h2, tr1 ++ tr2, st)

/-- `barrier.extend_noincr` (lines 96-98). -/
def bextendNoincr (fuel : Nat) (h : Heap) (b : Ref) (ps : List Ref) :
    Option (Heap × List Event × Except Exc Unit) :=
  match hGet h b with
  | some (.barr o) =>
      match promAt h o.pRef with
      | some ip =>
          if !ip.cancelled then baddLoop fuel h b ps
          else some (h, [], .ok ())
      | Option.none => Option.none
  | _ => Option.none

/-- `barrier.extend` (lines 91-94): bump `size` by the batch length first,
then attach each promise (so the `ValueError` from a full barrier fires
after the size bump). -/
def bextend (fuel : Nat) (h : Heap) (b : Ref) (ps : List Ref) :
    Option (Heap × List Event × Except Exc Unit) :=
  match hGet h b with
  | some (.barr o) =>
      match promAt h o.pRef with
      | some ip =>
          if !ip.cancelled then
            bextendNoincr fuel (hSet h b (.barr { o with size := o.size + ps.length })) b ps
          else some (h, [], .ok ())
      | Option.none => Option.none
  | _ => Option.none

/-- `barrier.finalize` (lines 74-77): fire if not yet finalized and the
count already meets the size, then mark finalized (not reached when the
internal promise's dispatch raises). -/
def bfinalize (fuel : Nat) (h : Heap) (b : Ref) :
    Option (Heap × List Event × Except Exc Unit) :=
  match hGet h b with
  | some (.barr o) =>
      if !o.finalized && decide (o.size ≤ o.bvalue) then
        match callRef fuel h o.pRef o.args o.kwargs with
        | Option.none => Option.none
        | some (h1, tr1, .error e) => some (h1, tr1, .error e)
        | some (h1, tr1, .ok _) =>
            match hGet h1 b with
            | some (.barr o1) =>
                some (hSet h1 b (.barr { o1 with finalized := true }), tr1, .ok ())
            | _ => Option.none
      else
        some (hSet h b (.barr { o with finalized := true }), [], .ok ())
  | _ => Option.none

/-- `barrier.__init__` (synchronization.py lines 38-65) without the
`callback` argument (the claims construct barriers without one and chain
`then` separately).  Allocates the internal promise and the barrier,
derives `size` from `len(promises)` when no explicit size is given,
attaches every initial promise via `extend_noincr` while `finalized` is
still false, and only afterwards sets
`self.finalized = bool(promises or self.size)`.  The
`self.ready = False` / `self.failed = False` / `self.cancelled = False`
property writes are identities on the freshly allocated internal promise
and are omitted.  Returns the barrier's reference. -/
def barrNew (fuel : Nat) (h : Heap) (ups : List Ref) (args : List Val)
    (kw : KW) (size? : Option Nat) :
    Option (Heap × List Event × Except Exc Ref) :=
  let pr := freshRef h
  let h1 := hSet h pr (.prom bareProm)
  let br := freshRef h1
  let size0 := size?.getD 0
  let size1 := if size0 = 0 && !ups.isEmpty then ups.length else size0
  let o0 : BarObj := { pRef := pr, args := args, kwargs := kw, bvalue := 0,
                       size := size1, finalized := false }
  let h2 := hSet h1 br (.barr o0)
  match (if ups.isEmpty then some (h2, ([] : List Event), Except.ok ())
         else bextendNoincr fuel h2 br ups) with
  | Option.none => Option.none
  | some (h3, tr3, .error e) => some (h3, tr3, .error e)
  | some (h3, tr3, .ok _) =>
      let fin := !ups.isEmpty || size1 != 0
      match hGet h3 br with
      | some (.barr o3) =>
          some (hSet h3 br (.barr { o3 with finalized := fin }), tr3, .ok br)
      | _ => Option.none

end Vine

namespace Vine

/-! ## Heap and dictionary lemmas -/

theorem hGet_hSet_self (h : Heap) (r : Ref) (o : Obj) :
    hGet (hSet h r o) r = some o := by
  induction h with
  | nil => simp [hSet, hGet]
  | cons p t ih =>
      obtain ⟨k, x⟩ := p
      by_cases hk : r = k
      · simp [hSet, hGet, hk]
      · simp [hSet, hGet, hk, ih]

theorem hGet_hSet_ne (h : Heap) (r r' : Ref) (o : Obj) (hne : r' ≠ r) :
    hGet (hSet h r o) r' = hGet h r' := by
  induction h with
  | nil => simp [hSet, hGet, hne]
  | cons p t ih =>
      obtain ⟨k, x⟩ := p
      by_cases hk : r = k
      · subst hk; simp [hSet, hGet, hne]
      · by_cases hk' : r' = k
        · simp [hSet, hGet, hk, hk']
        · simp [hSet, hGet, hk, hk', ih]

theorem mem_dom_of_hGet {h : Heap} {r : Ref} {o : Obj} (hr : hGet h r = some o) :
    r ∈ heapDom h := by
  induction h with
  | nil => simp [hGet] at hr
  | cons p t ih =>
      obtain ⟨k, x⟩ := p
      by_cases hk : r = k
      · subst hk; simp [heapDom]
      · simp only [hGet, if_neg hk] at hr
        have h1 := ih hr
        simp only [heapDom, List.map_cons, List.mem_cons]
        exact Or.inr h1

theorem le_foldr_max {l : List Nat} {r : Nat} (hr : r ∈ l) :
    r ≤ l.foldr (fun a b => Nat.max a b) 0 := by
  induction l with
  | nil => simp at hr
  | cons a t ih =>
      rcases List.mem_cons.mp hr with h1 | h1
      · subst h1; exact Nat.le_max_left _ _
      · exact le_trans (ih h1) (Nat.le_max_right _ _)

theorem lt_freshRef_of_mem_dom {h : Heap} {r : Ref} (hr : r ∈ heapDom h) :
    r < freshRef h :=
  Nat.lt_succ_of_le (le_foldr_max hr)

theorem ne_freshRef_of_hGet {h : Heap} {r : Ref} {o : Obj} (hr : hGet h r = some o) :
    r ≠ freshRef h :=
  Nat.ne_of_lt (lt_freshRef_of_mem_dom (mem_dom_of_hGet hr))

theorem promAt_hSet_self (h : Heap) (r : Ref) (o : PromObj) :
    promAt (hSet h r (.prom o)) r = some o := by
  simp [promAt, hGet_hSet_self]

/-- Lookup in a keyword dictionary (first binding wins; Python `dict`s have
unique keys, so this is the dictionary's indexing operation). -/
def kwLookup : KW → String → Option Val
  | [], _ => Option.none
  | (a, b) :: t, k => if a = k then some b else kwLookup t k

theorem kwLookup_eq_none_of_not_mem {d : KW} {k : String}
    (hk : k ∉ d.map Prod.fst) : kwLookup d k = Option.none := by
  induction d with
  | nil => simp [kwLookup]
  | cons p t ih =>
      obtain ⟨a, b⟩ := p
      rw [List.map_cons] at hk
      have h1 : ¬a = k := fun hh => hk (by simp [hh])
      have h2 : k ∉ t.map Prod.fst := fun hh => hk (List.mem_cons_of_mem _ hh)
      simp [kwLookup, h1, ih h2]

theorem kwLookup_eq_none_of_any_eq_false {d : KW} {k : String}
    (hany : d.any (fun p => p.1 = k) = false) : kwLookup d k = Option.none := by
  induction d with
  | nil => simp [kwLookup]
  | cons p t ih =>
      obtain ⟨a, b⟩ := p
      simp only [List.any_cons, Bool.or_eq_false_iff] at hany
      have h1 : ¬a = k := by
        intro hh
        simp [hh] at hany
      simp [kwLookup, h1, ih hany.2]

theorem kwLookup_append (d e : KW) (k : String) :
    kwLookup (d ++ e) k =
      match kwLookup d k with
      | some v => some v
      | Option.none => kwLookup e k := by
  induction d with
  | nil => simp [kwLookup]
  | cons p t ih =>
      obtain ⟨a, b⟩ := p
      by_cases ha : a = k
      · simp [kwLookup, ha]
      · simp [kwLookup, ha, ih]

theorem kwLookup_map_replace_ne {t : KW} {k k' : String} {v : Val} (hne : k' ≠ k) :
    kwLookup (t.map (fun p => if p.1 = k then (k, v) else p)) k' = kwLookup t k' := by
  induction t with
  | nil => simp [kwLookup]
  | cons p t ih =>
      obtain ⟨a, b⟩ := p
      rw [List.map_cons]
      by_cases ha : a = k
      · rw [if_pos (show ((a, b) : String × Val).1 = k from ha)]
        have h1 : ¬k = k' := fun x => hne x.symm
        have h2 : ¬a = k' := by rw [ha]; exact h1
        simp [kwLookup, h1, h2, ih]
      · rw [if_neg (show ¬((a, b) : String × Val).1 = k from ha)]
        by_cases ha' : a = k'
        · simp [kwLookup, ha']
        · simp [kwLookup, ha', ih]

theorem kwLookup_map_replace_self {t : KW} {k : String} {v : Val}
    (hany : t.any (fun p => p.1 = k) = true) :
    kwLookup (t.map (fun p => if p.1 = k then (k, v) else p)) k = some v := by
  induction t with
  | nil => simp at hany
  | cons p t ih =>
      obtain ⟨a, b⟩ := p
      rw [List.map_cons]
      by_cases ha : a = k
      · rw [if_pos (show ((a, b) : String × Val).1 = k from ha)]
        simp [kwLookup]
      · rw [if_neg (show ¬((a, b) : String × Val).1 = k from ha)]
        have ht : t.any (fun p => p.1 = k) = true := by
          simp only [List.any_cons] at hany
          rcases Bool.or_eq_true_iff.mp hany with h1 | h1
          · exact absurd (by simpa using h1) ha
          · exact h1
        simp [kwLookup, ha, ih ht]

theorem dictSet_kwLookup (d : KW) (k : String) (v : Val) (k' : String) :
    kwLookup (dictSet d k v) k' = if k' = k then some v else kwLookup d k' := by
  by_cases hany : d.any (fun p => p.1 = k)
  · rw [dictSet, if_pos hany]
    by_cases hk' : k' = k
    · subst hk'; simp [kwLookup_map_replace_self hany]
    · simp [kwLookup_map_replace_ne hk', hk']
  · rw [dictSet, if_neg hany]
    rw [kwLookup_append]
    by_cases hk' : k' = k
    · subst hk'
      rw [kwLookup_eq_none_of_any_eq_false (Bool.eq_false_iff.mpr hany)]
      simp [kwLookup]
    · have h1 : ¬k = k' := fun x => hk' x.symm
      cases hd : kwLookup d k' with
      | none => simp [kwLookup, h1, hk']
      | some w => simp [kwLookup, h1, hk']

theorem dictMerge_kwLookup :
    ∀ (e d : KW), (e.map Prod.fst).Nodup → ∀ k',
      kwLookup (dictMerge d e) k' =
        match kwLookup e k' with
        | some v => some v
        | Option.none => kwLookup d k' := by
  intro e
  induction e with
  | nil => intro d _ k'; simp [dictMerge, kwLookup]
  | cons p t ih =>
      obtain ⟨k1, v1⟩ := p
      intro d hnd k'
      rw [List.map_cons, List.nodup_cons] at hnd
      have hstep : dictMerge d ((k1, v1) :: t) = dictMerge (dictSet d k1 v1) t := by
        simp [dictMerge]
      rw [hstep, ih (dictSet d k1 v1) hnd.2 k']
      by_cases hk' : k' = k1
      · subst hk'
        rw [kwLookup_eq_none_of_not_mem hnd.1]
        simp [kwLookup, dictSet_kwLookup]
      · have h1 : ¬k1 = k' := fun x => hk' x.symm
        cases htl : kwLookup t k' with
        | none => simp [kwLookup, h1, htl, dictSet_kwLookup, hk']
        | some v => simp [kwLookup, h1, htl]

end Vine

/-! ## Claims -/

namespace Vine

/-- C9: invoking a cancelled promise as a callable is a complete no-op: the
heap is unchanged (so `ready`/`failed`/`value`/`reason` are untouched), no
bound callable and no continuation is invoked (the trace holds only the
entry marker for the invocation itself), and the call returns `None`
without raising. -/
theorem spec_c9 (fuel : Nat) (h : Heap) (r : Ref) (o : PromObj)
    (args : List Val) (kw : KW)
    (hr : hGet h r = some (.prom o)) (hc : o.cancelled = true) :
    callRef (fuel + 1) h r args kw = some (h, [.call r args kw], .ok (.val Option.none)) := by
  simp [callRef, exec, hr, hc]

theorem spec_c9_witness :
    callRef 1 [(0, Obj.prom { bareProm with cancelled := true })] 0 [Val.nat 3] [("k", Val.nat 1)] =
      some ([(0, Obj.prom { bareProm with cancelled := true })],
        [Event.call 0 [Val.nat 3] [("k", Val.nat 1)]], .ok (.val Option.none)) :=
  spec_c9 0 _ 0 _ _ _ rfl rfl

/-- C10: on fulfillment of a non-cancelled promise the effective positional
arguments are the bound ones followed by the call-time ones
(`mergeArgs bound call = bound ++ call`), and the effective keyword
arguments are the bound ones merged with the call-time ones with the
call-time entry winning on key collision (`kwLookup (mergeKW bound call) k`
prefers `kwLookup call k`); a bare promise call records exactly this merge
as its fulfillment `value`. -/
theorem spec_c10 :
    (∀ (bound call : List Val), mergeArgs bound call = bound ++ call) ∧
    (∀ (bound call : KW), (call.map Prod.fst).Nodup → ∀ k,
      kwLookup (mergeKW bound call) k =
        match kwLookup call k with
        | some v => some v
        | Option.none => kwLookup bound k) ∧
    (∀ (fuel : Nat) (h : Heap) (r : Ref) (o : PromObj) (args : List Val) (kw : KW),
      hGet h r = some (.prom o) → o.cancelled = false → o.fn = Option.none →
      o.sv = Option.none → o.lv = Option.none →
      ∃ h', callRef (fuel + 2) h r args kw = some (h', [.call r args kw], .ok (.val Option.none)) ∧
        promAt h' r = some { o with value := some (mergeArgs o.args args, mergeKW o.kwargs kw),
                                    ready := true, lv := Option.none }) := by
  refine ⟨?_, ?_, ?_⟩
  · intro bound call
    cases call with
    | nil => simp [mergeArgs]
    | cons a t => simp [mergeArgs]
  · intro bound call hnd k
    cases call with
    | nil => simp [mergeKW, kwLookup]
    | cons a t =>
        rw [mergeKW, if_neg (by simp)]
        exact dictMerge_kwLookup (a :: t) bound hnd k
  · intro fuel h r o args kw hr hc hfn hsv hlv
    refine ⟨hSet (hSet h r (.prom { o with value := some (mergeArgs o.args args, mergeKW o.kwargs kw), ready := true }))
        r (.prom { o with value := some (mergeArgs o.args args, mergeKW o.kwargs kw), ready := true, lv := Option.none }),
      ?_, ?_⟩
    · simp [callRef, exec, hr, hc, hfn, promAt, hsv, hlv]
    · rw [promAt_hSet_self]

end Vine
namespace Vine

theorem spec_c10_witness :
    mergeArgs [Val.nat 1] [Val.nat 2] = [Val.nat 1] ++ [Val.nat 2] ∧
    (kwLookup (mergeKW [("a", Val.nat 1), ("b", Val.nat 2)] [("b", Val.nat 9), ("c", Val.nat 3)]) "b" =
      match kwLookup [("b", Val.nat 9), ("c", Val.nat 3)] "b" with
      | some v => some v
      | Option.none => kwLookup [("a", Val.nat 1), ("b", Val.nat 2)] "b") ∧
    (∃ h', callRef 2 [(0, Obj.prom { bareProm with args := [Val.nat 1], kwargs := [("a", Val.nat 1)] })]
        0 [Val.nat 2] [("b", Val.nat 9)] =
        some (h', [Event.call 0 [Val.nat 2] [("b", Val.nat 9)]], .ok (.val Option.none)) ∧
      promAt h' 0 = some { { bareProm with args := [Val.nat 1], kwargs := [("a", Val.nat 1)] } with
        value := some (mergeArgs [Val.nat 1] [Val.nat 2], mergeKW [("a", Val.nat 1)] [("b", Val.nat 9)]),
        ready := true, lv := Option.none }) :=
  ⟨spec_c10.1 _ _, spec_c10.2.1 _ _ (by decide) _,
    spec_c10.2.2 0 _ 0 _ _ _ rfl rfl rfl rfl rfl⟩

end Vine
namespace Vine

/-- Every invocation's trace starts with the entry event for the invoked
object. -/
theorem callRef_trace_head {fuel : Nat} {h : Heap} {r : Ref} {a : List Val} {k : KW}
    {res : Heap × List Event × Except Exc Out}
    (hres : callRef fuel h r a k = some res) :
    ∃ t, res.2.1 = Event.call r a k :: t := by
  cases fuel with
  | zero => simp [callRef, exec] at hres
  | succ f =>
      simp only [callRef, exec] at hres
      repeat' split at hres
      all_goals first
        | (injection hres with hres; subst hres; exact ⟨_, rfl⟩)
        | (simp at hres)

/-- In a successful full queue dispatch, every queued listener receives the
forwarded arguments. -/
theorem lvLoop_events : ∀ {fuel : Nat} {h : Heap} {r : Ref} {q : List Ref}
    {ca : List Val} {ck : KW} {h' : Heap} {tr : List Event},
    lvLoop fuel h r q ca ck = some (h', tr, .ok .unit) →
    ∀ l ∈ q, Event.call l ca ck ∈ tr := by
  intro fuel
  induction fuel with
  | zero => intro h r q ca ck h' tr hres; simp [lvLoop, exec] at hres
  | succ f ih =>
      intro h r q ca ck h' tr hres
      cases q with
      | nil => intro l hl; simp at hl
      | cons l0 rest =>
          simp only [lvLoop, exec] at hres
          cases hpa : promAt h r with
          | none => rw [hpa] at hres; simp at hres
          | some o =>
              rw [hpa] at hres
              simp only at hres
              cases hc : exec f (hSet h r (.prom { o with lv := some rest })) (.callO l0 ca ck) with
              | none => rw [hc] at hres; simp at hres
              | some res0 =>
                  obtain ⟨h1, tr1, st1⟩ := res0
                  rw [hc] at hres
                  cases st1 with
                  | error e => simp at hres
                  | ok u =>
                      simp only at hres
                      cases hl2 : exec f h1 (.lvO r rest ca ck) with
                      | none => rw [hl2] at hres; simp at hres
                      | some res1 =>
                          obtain ⟨h2, tr2, st2⟩ := res1
                          rw [hl2] at hres
                          simp only [Option.some.injEq, Prod.mk.injEq] at hres
                          obtain ⟨rfl, rfl, hst⟩ := hres
                          subst hst
                          intro l hl
                          rcases List.mem_cons.mp hl with rfl | hl'
                          · obtain ⟨t, ht⟩ := callRef_trace_head hc
                            exact List.mem_append_left _
                              (by rw [show tr1 = Event.call l ca ck :: t from ht]; exact List.mem_cons_self _ _)
                          · exact List.mem_append_right _ (ih hl2 l hl')

end Vine

namespace Vine

/-- C6: forwarding on fulfillment.  With a bound callable that returns
successfully (`.ok (.val rv)`), the callable's return value becomes the
sole positional argument forwarded to every attached continuation — the
single-slot listener and every queued listener are invoked with
`[rv.getD Val.none]` and no keyword arguments.  With no bound callable,
the merged positional and keyword arguments of the call are forwarded
unchanged to the single-slot listener and to every queued listener. -/
theorem spec_c6 :
    (∀ (fuel : Nat) (h : Heap) (r : Ref) (o : PromObj) (args : List Val) (kw : KW)
       (fr : Ref) (h1 : Heap) (tr1 : List Event) (rv : Option Val) (o1 : PromObj)
       (c : Ref) (h2' : Heap) (tr2 : List Event) (out2 : Except Exc Out) (o3 : PromObj),
      hGet h r = some (.prom o) → o.cancelled = false → o.fn = some fr →
      callRef (fuel+1) h fr (mergeArgs o.args args) (mergeKW o.kwargs kw) = some (h1, tr1, .ok (.val rv)) →
      promAt h1 r = some o1 → o1.sv = some c →
      callRef fuel (hSet h1 r (.prom { o1 with value := some ([rv.getD Val.none], []), ready := true }))
          c [rv.getD Val.none] [] = some (h2', tr2, out2) →
      promAt h2' r = some o3 →
      callRef (fuel+2) h r args kw = some (hSet h2' r (.prom { o3 with sv := Option.none }),
          Event.call r args kw :: (tr1 ++ tr2),
          match out2 with
          | .ok _ => .ok (.val (some (rv.getD Val.none)))
          | .error e => .error e) ∧
        ∃ t, tr2 = Event.call c [rv.getD Val.none] [] :: t) ∧
    (∀ (fuel : Nat) (h : Heap) (r : Ref) (o : PromObj) (args : List Val) (kw : KW)
       (fr : Ref) (h1 : Heap) (tr1 : List Event) (rv : Option Val) (o1 : PromObj)
       (q : List Ref) (h2' : Heap) (tr2 : List Event) (o3 : PromObj),
      hGet h r = some (.prom o) → o.cancelled = false → o.fn = some fr →
      callRef (fuel+1) h fr (mergeArgs o.args args) (mergeKW o.kwargs kw) = some (h1, tr1, .ok (.val rv)) →
      promAt h1 r = some o1 → o1.sv = Option.none → o1.lv = some q →
      lvLoop fuel (hSet h1 r (.prom { o1 with value := some ([rv.getD Val.none], []), ready := true }))
          r q [rv.getD Val.none] [] = some (h2', tr2, .ok .unit) →
      promAt h2' r = some o3 →
      callRef (fuel+2) h r args kw = some (hSet h2' r (.prom { o3 with lv := Option.none }),
          Event.call r args kw :: (tr1 ++ tr2), .ok (.val (some (rv.getD Val.none)))) ∧
        ∀ l ∈ q, Event.call l [rv.getD Val.none] [] ∈ tr2) ∧
    (∀ (fuel : Nat) (h : Heap) (r : Ref) (o : PromObj) (args : List Val) (kw : KW)
       (c : Ref) (h2' : Heap) (tr2 : List Event) (out2 : Except Exc Out) (o3 : PromObj),
      hGet h r = some (.prom o) → o.cancelled = false → o.fn = Option.none → o.sv = some c →
      callRef fuel (hSet h r (.prom { o with value := some (mergeArgs o.args args, mergeKW o.kwargs kw), ready := true }))
          c (mergeArgs o.args args) (mergeKW o.kwargs kw) = some (h2', tr2, out2) →
      promAt h2' r = some o3 →
      callRef (fuel+2) h r args kw = some (hSet h2' r (.prom { o3 with sv := Option.none }),
          Event.call r args kw :: tr2,
          match out2 with
          | .ok _ => .ok (.val Option.none)
          | .error e => .error e) ∧
        ∃ t, tr2 = Event.call c (mergeArgs o.args args) (mergeKW o.kwargs kw) :: t) ∧
    (∀ (fuel : Nat) (h : Heap) (r : Ref) (o : PromObj) (args : List Val) (kw : KW)
       (q : List Ref) (h2' : Heap) (tr2 : List Event) (o3 : PromObj),
      hGet h r = some (.prom o) → o.cancelled = false → o.fn = Option.none →
      o.sv = Option.none → o.lv = some q →
      lvLoop fuel (hSet h r (.prom { o with value := some (mergeArgs o.args args, mergeKW o.kwargs kw), ready := true }))
          r q (mergeArgs o.args args) (mergeKW o.kwargs kw) = some (h2', tr2, .ok .unit) →
      promAt h2' r = some o3 →
      callRef (fuel+2) h r args kw = some (hSet h2' r (.prom { o3 with lv := Option.none }),
          Event.call r args kw :: tr2, .ok (.val Option.none)) ∧
        ∀ l ∈ q, Event.call l (mergeArgs o.args args) (mergeKW o.kwargs kw) ∈ tr2) := by
  refine ⟨?_, ?_, ?_, ?_⟩
  · intro fuel h r o args kw fr h1 tr1 rv o1 c h2' tr2 out2 o3 hr hcan hfnf hfn ho1 hsv hlis ho3
    simp only [callRef] at hfn hlis
    constructor
    · rw [show fuel + 2 = (fuel+1)+1 from rfl]
      simp only [callRef]
      rw [exec.eq_2, hr]
      simp only [hcan, Bool.false_eq_true, if_false, hfnf]
      rw [hfn]
      simp only [outVal]
      rw [exec.eq_3]
      rw [ho1]
      rw [hsv] at hlis
      simp only [hsv, hlis, ho3]
    · obtain ⟨t, ht⟩ := callRef_trace_head (show callRef fuel _ c _ _ = some (h2', tr2, out2) from hlis)
      exact ⟨t, ht⟩
  · intro fuel h r o args kw fr h1 tr1 rv o1 q h2' tr2 o3 hr hcan hfnf hfn ho1 hsv hlv hloop ho3
    simp only [callRef] at hfn
    simp only [lvLoop] at hloop
    constructor
    · rw [show fuel + 2 = (fuel+1)+1 from rfl]
      simp only [callRef]
      rw [exec.eq_2, hr]
      simp only [hcan, Bool.false_eq_true, if_false, hfnf]
      rw [hfn]
      simp only [outVal]
      rw [exec.eq_3]
      rw [ho1]
      rw [hsv, hlv] at hloop
      simp only [hsv, hlv, hloop, ho3]
    · exact lvLoop_events (show lvLoop fuel _ r q _ _ = _ from hloop)
  · intro fuel h r o args kw c h2' tr2 out2 o3 hr hcan hfnf hsv hlis ho3
    simp only [callRef] at hlis
    have hpa : promAt h r = some o := by simp [promAt, hr]
    constructor
    · rw [show fuel + 2 = (fuel+1)+1 from rfl]
      simp only [callRef]
      rw [exec.eq_2, hr]
      simp only [hcan, Bool.false_eq_true, if_false, hfnf]
      rw [exec.eq_3]
      rw [hpa]
      rw [hsv] at hlis
      simp only [hsv, hlis, ho3]
    · obtain ⟨t, ht⟩ := callRef_trace_head (show callRef fuel _ c _ _ = some (h2', tr2, out2) from hlis)
      exact ⟨t, ht⟩
  · intro fuel h r o args kw q h2' tr2 o3 hr hcan hfnf hsv hlv hloop ho3
    simp only [lvLoop] at hloop
    have hpa : promAt h r = some o := by simp [promAt, hr]
    constructor
    · rw [show fuel + 2 = (fuel+1)+1 from rfl]
      simp only [callRef]
      rw [exec.eq_2, hr]
      simp only [hcan, Bool.false_eq_true, if_false, hfnf]
      rw [exec.eq_3]
      rw [hpa]
      rw [hsv, hlv] at hloop
      simp only [hsv, hlv, hloop, ho3]
    · exact lvLoop_events (show lvLoop fuel _ r q _ _ = _ from hloop)

end Vine

namespace Vine

/-- A bound callable returning `42`, for witnesses. -/
def c6g : Fn := fun _ _ => .ok (.nat 42)

/-- A plain continuation returning `None`, for witnesses. -/
def c6sink : Fn := fun _ _ => .ok .none

def c6o : PromObj := { bareProm with fn := some 1, sv := some 2 }
def c6h : Heap := [(1, .plain c6g), (2, .plain c6sink), (3, .prom c6o)]
def c6oB : PromObj := { bareProm with fn := some 1, lv := some [2] }
def c6hB : Heap := [(1, .plain c6g), (2, .plain c6sink), (3, .prom c6oB)]
def c6oC : PromObj := { bareProm with args := [Val.nat 1], sv := some 2 }
def c6hC : Heap := [(2, .plain c6sink), (3, .prom c6oC)]
def c6oD : PromObj := { bareProm with lv := some [2] }
def c6hD : Heap := [(2, .plain c6sink), (3, .prom c6oD)]

theorem spec_c6_witness :
    (callRef 3 c6h 3 [Val.nat 5] [] =
      some ([(1, Obj.plain c6g), (2, Obj.plain c6sink), (3, Obj.prom { bareProm with fn := some 1, value := some ([Val.nat 42], []), ready := true })],
        [Event.call 3 [Val.nat 5] [], Event.call 1 [Val.nat 5] [], Event.call 2 [Val.nat 42] []],
        .ok (.val (some (Val.nat 42))))) ∧
    Event.call 2 [Val.nat 42] [] ∈ [Event.call 2 [Val.nat 42] []] ∧
    (callRef 3 c6hC 3 [Val.nat 5] [] =
      some ([(2, Obj.plain c6sink), (3, Obj.prom { bareProm with args := [Val.nat 1], value := some ([Val.nat 1, Val.nat 5], []), ready := true })],
        [Event.call 3 [Val.nat 5] [], Event.call 2 [Val.nat 1, Val.nat 5] []],
        .ok (.val Option.none))) ∧
    Event.call 2 [Val.nat 7] [] ∈ [Event.call 2 [Val.nat 7] []] :=
  ⟨(spec_c6.1 1 c6h 3 c6o [Val.nat 5] [] 1 c6h [Event.call 1 [Val.nat 5] []]
      (some (Val.nat 42)) c6o 2
      (hSet c6h 3 (.prom { c6o with value := some ([Val.nat 42], []), ready := true }))
      [Event.call 2 [Val.nat 42] []] (.ok (.val (some Val.none)))
      { c6o with value := some ([Val.nat 42], []), ready := true }
      rfl rfl rfl rfl rfl rfl rfl rfl).1,
   (spec_c6.2.1 2 c6hB 3 c6oB [] [] 1 c6hB [Event.call 1 [] []]
      (some (Val.nat 42)) c6oB [2]
      (hSet (hSet c6hB 3 (.prom { c6oB with value := some ([Val.nat 42], []), ready := true }))
        3 (.prom { c6oB with value := some ([Val.nat 42], []), ready := true, lv := some [] }))
      [Event.call 2 [Val.nat 42] []]
      { c6oB with value := some ([Val.nat 42], []), ready := true, lv := some [] }
      rfl rfl rfl rfl rfl rfl rfl rfl rfl).2 2 (by simp),
   (spec_c6.2.2.1 1 c6hC 3 c6oC [Val.nat 5] [] 2
      (hSet c6hC 3 (.prom { c6oC with value := some ([Val.nat 1, Val.nat 5], []), ready := true }))
      [Event.call 2 [Val.nat 1, Val.nat 5] []] (.ok (.val (some Val.none)))
      { c6oC with value := some ([Val.nat 1, Val.nat 5], []), ready := true }
      rfl rfl rfl rfl rfl rfl).1,
   (spec_c6.2.2.2 2 c6hD 3 c6oD [Val.nat 7] [] [2]
      (hSet (hSet c6hD 3 (.prom { c6oD with value := some ([Val.nat 7], []), ready := true }))
        3 (.prom { c6oD with value := some ([Val.nat 7], []), ready := true, lv := some [] }))
      [Event.call 2 [Val.nat 7] []]
      { c6oD with value := some ([Val.nat 7], []), ready := true, lv := some [] }
      rfl rfl rfl rfl rfl rfl rfl).2 2 (by simp)⟩

end Vine
namespace Vine

/-- A plain continuation returning `None` (the claim's `c3`). -/
def c1sink : Fn := fun _ _ => .ok .none

/-- A promise already fulfilled with value `7`. -/
def c1o : PromObj := { bareProm with ready := true, value := some ([Val.nat 7], []) }

def c1h : Heap := [(1, .prom c1o), (2, .plain c1sink)]

/-- C1 counterexample: on the promise already fulfilled with `7`, `then(c3)`
does replay `c3(7)` synchronously (the event in the `then` trace), but it
ALSO stores `c3` in the single listener slot (`sv := some 2` afterwards),
and a later invocation `p(9)` dispatches to `c3` again — refuting "does not
also queue c in the listener slot" and "leaves c3 unregistered for any
future dispatch". -/
theorem spec_c1_cex :
    thenRef 10 c1h 1 2 Option.none Option.none =
      some ([(1, Obj.prom { c1o with sv := some 2 }), (2, Obj.plain c1sink)],
        [Event.call 2 [Val.nat 7] []], .ok (.ref 2)) ∧
    (thenRef 10 c1h 1 2 Option.none Option.none).bind
        (fun x => (callRef 10 x.1 1 [Val.nat 9] []).map (fun y => y.2.1)) =
      some [Event.call 1 [Val.nat 9] [], Event.call 2 [Val.nat 9] []] :=
  ⟨rfl, rfl⟩

/-- A promise already failed with recorded reason `userExc 0`. -/
def c1of : PromObj := { bareProm with failed := true, reason := some (.userExc 0) }

/-- A failed promise with a plain-callable continuation to attach. -/
def c1hf : Heap := [(1, .prom c1of), (2, .plain c1sink)]

/-- A failed promise with a promise (`Thenable`) continuation to attach. -/
def c1hf2 : Heap := [(1, .prom c1of), (2, .prom bareProm)]

/-- C1 (amended): (1) `then(cb)` on an already-fulfilled promise with a
plain-callable continuation immediately replays the stored value to the
continuation — its invocation with the stored `(va, ks)` is the single
event of the `then` trace, so it happens synchronously before `then`
returns — and, in addition, registers the continuation in the listener
slot (`sv := some cb` in the resulting heap), so it remains attached for
future dispatch.  (2) On an already-failed promise (reason `E` recorded,
no ambient exception) the stored reason is NOT routed to the
continuation's failure path: with a plain-callable continuation,
`p.throw(self.reason)` raises `AttributeError` (`throw`) — the
continuation is never invoked, nothing is registered, and the heap is
unchanged.  (3) With a `Thenable` continuation, `then` wraps it in a
fresh handlerless wrapper promise (the inverted `isinstance`, line 169);
the stored reason is recorded on the WRAPPER's failure path
(`failed`/`reason` of the object at `freshRef h`), the continuation and
the source promise are untouched (so nothing is registered and the
continuation never learns the reason), and `then` re-raises `E` to the
caller. -/
theorem spec_c1 :
    (∀ (fuel : Nat) (h : Heap) (r cb : Ref) (o : PromObj) (g : Fn)
       (va : List Val) (ks : KW) (v : Val) (cur : Option Exc),
      hGet h r = some (.prom o) → o.cancelled = false → o.failed = false →
      o.ready = true → o.value = some (va, ks) → o.sv = Option.none →
      o.lv = Option.none → hGet h cb = some (.plain g) → g va ks = .ok v →
      thenRef (fuel+2) h r cb Option.none cur =
        some (hSet h r (.prom { o with sv := some cb }),
          [Event.call cb va ks], .ok (.ref cb))) ∧
    (∀ (fuel : Nat) (h : Heap) (r cb : Ref) (o : PromObj) (g : Fn) (E : Exc),
      hGet h r = some (.prom o) → o.cancelled = false → o.failed = true →
      o.reason = some E → hGet h cb = some (.plain g) →
      thenRef (fuel+2) h r cb Option.none Option.none =
        some (h, [], .error (.attributeError "throw"))) ∧
    (∀ (fuel : Nat) (h : Heap) (r cb : Ref) (o co : PromObj) (E : Exc),
      hGet h r = some (.prom o) → o.cancelled = false → o.failed = true →
      o.reason = some E → hGet h cb = some (.prom co) →
      ∃ h', thenRef (fuel+3) h r cb Option.none Option.none =
          some (h', [], .error E) ∧
        hGet h' r = hGet h r ∧ hGet h' cb = hGet h cb ∧
        (promAt h' (freshRef h)).map (fun q => (q.failed, q.reason)) =
          some (true, some E)) := by
  refine ⟨?_, ?_, ?_⟩
  · intro fuel h r cb o g va ks v cur hr hcan hfl hrd hval hsv hlv hcb hg
    simp only [thenRef]
    rw [show fuel + 2 = (fuel+1)+1 from rfl, exec.eq_17, hr]
    have hwrap : isThenableAt h cb = false := by simp [isThenableAt, hcb]
    simp only [hwrap, Bool.false_eq_true, if_false, hcan, hfl, hrd, if_true, hval]
    rw [exec.eq_2, hcb]
    simp only [hg]
    have hpa : promAt h r = some o := by simp [promAt, hr]
    rw [hpa]
    simp only [hsv, hlv]
    simp [hrd, hfl, hcan, hval]
  · intro fuel h r cb o g E hr hcan hfl hrs hcb
    simp only [thenRef]
    rw [show fuel + 2 = (fuel+1)+1 from rfl, exec.eq_17, hr]
    have hwrap : isThenableAt h cb = false := by simp [isThenableAt, hcb]
    simp only [hwrap, Bool.false_eq_true, if_false, hcan, hfl, if_true, hrs]
    rw [exec.eq_7, hcb]
  · intro fuel h r cb o co E hr hcan hfl hrs hcb
    have hrw : r ≠ freshRef h := ne_freshRef_of_hGet hr
    have hcbw : cb ≠ freshRef h := ne_freshRef_of_hGet hcb
    have hth : isThenableAt h cb = true := by simp [isThenableAt, hcb]
    have hw1 : hGet (hSet h (freshRef h) (.prom (mkWrapper cb Option.none))) (freshRef h) =
        some (.prom (mkWrapper cb Option.none)) := hGet_hSet_self _ _ _
    have hpa2 : promAt (hSet (hSet h (freshRef h) (.prom (mkWrapper cb Option.none)))
          (freshRef h) (.prom { mkWrapper cb Option.none with failed := true, reason := some E }))
        (freshRef h) =
        some { mkWrapper cb Option.none with failed := true, reason := some E } :=
      promAt_hSet_self _ _ _
    refine ⟨hSet (hSet (hSet h (freshRef h) (.prom (mkWrapper cb Option.none)))
        (freshRef h) (.prom { mkWrapper cb Option.none with failed := true, reason := some E }))
      (freshRef h) (.prom { mkWrapper cb Option.none with failed := true, reason := some E }),
      ?_, ?_, ?_, ?_⟩
    · simp only [thenRef]
      rw [show fuel + 3 = (fuel+2)+1 from rfl, exec.eq_17, hr]
      simp only [hth, if_true, hcan, Bool.false_eq_true, if_false, hfl, hrs]
      rw [show fuel + 2 = (fuel+1)+1 from rfl, exec.eq_7, hw1]
      simp only [mkWrapper, bareProm] at hw1 hpa2 ⊢
      simp only [Bool.false_eq_true, if_false]
      rw [exec.eq_10, hw1]
      simp only [Bool.false_eq_true, if_false]
      rw [hpa2]
      simp only []
      rw [promAt_hSet_self]
      simp
    · rw [hGet_hSet_ne _ _ _ _ hrw, hGet_hSet_ne _ _ _ _ hrw, hGet_hSet_ne _ _ _ _ hrw]
    · rw [hGet_hSet_ne _ _ _ _ hcbw, hGet_hSet_ne _ _ _ _ hcbw, hGet_hSet_ne _ _ _ _ hcbw]
    · rw [promAt_hSet_self]
      simp [mkWrapper, bareProm]

theorem spec_c1_witness :
    (thenRef 2 c1h 1 2 Option.none Option.none =
      some (hSet c1h 1 (.prom { c1o with sv := some 2 }),
        [Event.call 2 [Val.nat 7] []], .ok (.ref 2))) ∧
    (thenRef 2 c1hf 1 2 Option.none Option.none =
      some (c1hf, [], .error (.attributeError "throw"))) ∧
    (∃ h', thenRef 3 c1hf2 1 2 Option.none Option.none =
        some (h', [], .error (.userExc 0)) ∧
      hGet h' 1 = hGet c1hf2 1 ∧ hGet h' 2 = hGet c1hf2 2 ∧
      (promAt h' (freshRef c1hf2)).map (fun q => (q.failed, q.reason)) =
        some (true, some (.userExc 0))) :=
  ⟨spec_c1.1 0 c1h 1 2 c1o c1sink [Val.nat 7] [] Val.none Option.none
     rfl rfl rfl rfl rfl rfl rfl rfl rfl,
   spec_c1.2.1 0 c1hf 1 2 c1of c1sink (.userExc 0) rfl rfl rfl rfl rfl,
   spec_c1.2.2 0 c1hf2 1 2 c1of bareProm (.userExc 0) rfl rfl rfl rfl rfl⟩

end Vine
namespace Vine

/-- A plain callable standing for `print` in the promise docstring
example. -/
def c2print : Fn := fun _ _ => .ok .none

def c2hPlain : Heap := [(1, .prom bareProm), (2, .plain c2print)]
def c2hProm : Heap := [(1, .prom bareProm), (2, .prom bareProm)]

/-- C2 evaluated at the failing input (`promise.then`'s inverted
`isinstance` check, promises.py line 169).  (i) `p.then(print)` with a
plain callable attaches and returns the plain callable itself, unwrapped
(`.ref 2`, and `sv := some 2` points at the plain object); (ii)
`p.then(promise())` with a promise callback allocates a NEW wrapper
promise (`.ref 3`, with `fun := some 2`) instead of using the promise
as-is; (iii) consequently the class docstring's own example
`p2.then(print); p2.cancel()` raises `AttributeError` inside `cancel`.
This is the opposite of the claimed (and documented) wrapping rule. -/
theorem spec_c2 :
    thenRef 10 c2hPlain 1 2 Option.none Option.none =
      some ([(1, Obj.prom { bareProm with sv := some 2 }), (2, Obj.plain c2print)],
        [], .ok (.ref 2)) ∧
    thenRef 10 c2hProm 1 2 Option.none Option.none =
      some ([(1, Obj.prom { bareProm with sv := some 3 }), (2, Obj.prom bareProm),
             (3, Obj.prom (mkWrapper 2 Option.none))],
        [], .ok (.ref 3)) ∧
    (thenRef 10 c2hPlain 1 2 Option.none Option.none).bind
        (fun x => cancelRef 10 x.1 1) =
      some ([(1, Obj.prom { bareProm with cancelled := true }), (2, Obj.plain c2print)],
        [], .error (.attributeError "cancel")) :=
  ⟨rfl, rfl, rfl⟩

end Vine
namespace Vine

/-- The plain callable (e.g. `print`) attached unwrapped by `then`. -/
def c8print : Fn := fun _ _ => .ok .none

/-- A promise whose single listener slot holds a plain callable — exactly
the state the class docstring's own `p2 = promise(); p2.then(print)`
produces under this code. -/
def c8h : Heap := [(1, .plain c8print), (2, .prom { bareProm with sv := some 1 })]

/-- C8 evaluated at the failing input: `cancel()` on a promise whose
listener slot holds a plain callable sets the `cancelled` flag, then
raises `AttributeError` from `self._svpending.cancel()`; the `finally`
still releases the references.  So `cancel` CAN raise, contrary to the
claim (and to the docstring example `p2.then(print); p2.cancel()`, which
shows no exception). -/
theorem spec_c8 :
    cancelRef 10 c8h 2 =
      some ([(1, Obj.plain c8print), (2, Obj.prom { bareProm with cancelled := true })],
        [], .error (.attributeError "cancel")) :=
  rfl

end Vine
namespace Vine

theorem promAt_hSet_ne (h : Heap) (r r' : Ref) (o : Obj) (hne : r' ≠ r) :
    promAt (hSet h r o) r' = promAt h r' := by
  simp [promAt, hGet_hSet_ne h r r' o hne]

/-- A barrier that has fired (`ready` via its internal promise) and was
then cancelled.  (Reachable: fire the barrier, then call `cancel()`, which
sets the internal promise's `cancelled` flag and leaves `ready` true.) -/
def c7ip : PromObj := { bareProm with ready := true, cancelled := true }
def c7bar : BarObj := { pRef := 1, args := [], kwargs := [], bvalue := 1, size := 1, finalized := true }
def c7h : Heap := [(1, .prom c7ip), (2, .barr c7bar), (3, .prom bareProm)]

/-- The same barrier but only fired, not cancelled. -/
def c7h2 : Heap := [(1, .prom { bareProm with ready := true }), (2, .barr c7bar), (3, .prom bareProm)]

/-- C7 counterexample: on a barrier whose `ready` flag is true but which
has additionally been cancelled, `add(p)`/`extend(ps)` do NOT raise — the
`if not self.cancelled` guard makes them silently ignore the attachment
(heap unchanged, outcome `ok`), refuting the claim for such (ready)
barriers. -/
theorem spec_c7_cex :
    badd 10 c7h 2 3 = some (c7h, [], .ok ()) ∧
    bextend 10 c7h 2 [3] = some (c7h, [], .ok ()) :=
  ⟨rfl, rfl⟩

/-- C7 (amended): on every non-cancelled barrier whose `ready` flag is
true, `add(p)` and `add_noincr(p)` raise the distinct
`ValueError('Cannot add promise to full barrier')` and leave the heap
unchanged, and `extend(p :: ps)` raises the same error after having
already bumped `size` by the batch length; a barrier that is also
cancelled silently ignores the attachment instead. -/
theorem spec_c7 (fuel : Nat) (h : Heap) (b p : Ref) (ps : List Ref)
    (o : BarObj) (ip : PromObj)
    (hb : hGet h b = some (.barr o)) (hip : promAt h o.pRef = some ip)
    (hrd : ip.ready = true) (hcan : ip.cancelled = false)
    (hbp : o.pRef ≠ b) :
    badd fuel h b p = some (h, [], .error (.valueError "Cannot add promise to full barrier")) ∧
    baddNoincr fuel h b p = some (h, [], .error (.valueError "Cannot add promise to full barrier")) ∧
    bextend fuel h b (p :: ps) =
      some (hSet h b (.barr { o with size := o.size + (p :: ps).length }), [],
        .error (.valueError "Cannot add promise to full barrier")) := by
  have hnoincr : baddNoincr fuel h b p =
      some (h, [], .error (.valueError "Cannot add promise to full barrier")) := by
    rw [baddNoincr, hb]
    simp only [hip, hcan, hrd]
    simp
  refine ⟨?_, hnoincr, ?_⟩
  · rw [badd, hb]
    simp only [hip, hcan]
    simp only [Bool.not_false, if_true, hnoincr]
  · rw [bextend, hb]
    simp only [hip, hcan, Bool.not_false, if_true]
    have hb1 : hGet (hSet h b (.barr { o with size := o.size + (p :: ps).length })) b =
        some (.barr { o with size := o.size + (p :: ps).length }) := hGet_hSet_self _ _ _
    have hip1 : promAt (hSet h b (.barr { o with size := o.size + (p :: ps).length })) o.pRef =
        some ip := by rw [promAt_hSet_ne _ _ _ _ hbp, hip]
    rw [bextendNoincr, hb1]
    simp only [hip1, hcan, Bool.not_false, if_true]
    rw [baddLoop]
    have hnoincr1 : baddNoincr fuel (hSet h b (.barr { o with size := o.size + (p :: ps).length })) b p =
        some (hSet h b (.barr { o with size := o.size + (p :: ps).length }), [],
          .error (.valueError "Cannot add promise to full barrier")) := by
      rw [baddNoincr, hb1]
      simp only [hip1, hcan, hrd]
      simp
    simp only [hnoincr1]

theorem spec_c7_witness :
    badd 5 c7h2 2 3 =
      some (c7h2, [], .error (.valueError "Cannot add promise to full barrier")) ∧
    bextend 5 c7h2 2 [3] =
      some (hSet c7h2 2 (.barr { c7bar with size := c7bar.size + 1 }), [],
        .error (.valueError "Cannot add promise to full barrier")) :=
  ⟨(spec_c7 5 c7h2 2 3 [] c7bar { bareProm with ready := true } rfl rfl rfl rfl (by decide)).1,
   (spec_c7 5 c7h2 2 3 [] c7bar { bareProm with ready := true } rfl rfl rfl rfl (by decide)).2.2⟩

end Vine
namespace Vine

/-- The error handler `h2` bound to `p2` (a plain callable). -/
def c3sink : Fn := fun _ _ => .ok .none

def c3p2 : PromObj := { bareProm with onError := some 1 }

/-- `h2` at 1, `p2` (with error handler `h2`) at 2, `p1` (bare) at 3. -/
def c3h : Heap := [(1, .plain c3sink), (2, .prom c3p2), (3, .prom bareProm)]

/-- C3 counterexample: after `p1.then(p2)` (which, under this code, wraps
`p2` in a fresh handlerless promise at 4), `p1.throw(E)` produces NO
invocation of `h2` (the trace is empty), leaves `p2` completely untouched
(its failure path is never entered), and STILL re-raises `E` to the
caller — refuting both "h2 invoked with E" and "throw returns without
re-raising once a downstream handler absorbed the failure". -/
theorem spec_c3_cex :
    (thenRef 10 c3h 3 2 Option.none Option.none).bind
        (fun x => (throwRef 10 x.1 3 (some (.userExc 0)) Option.none true).map
          (fun y => (y.2.1, y.2.2, promAt y.1 2, promAt y.1 4))) =
      some ([], .error (.userExc 0), some c3p2,
        some { bareProm with fn := some 2, failed := true, reason := some (.userExc 0) }) :=
  rfl

/-- C3 (amended): when a non-cancelled promise with no bound error handler
fails via `throw(E)` with `propagate` true, the failure is recorded on the
promise and forwarded via `throw1` to the attached listener object (which
records `failed`/`reason` and invokes its OWN bound error handler with
`self.args + (E,)` and `self.kwargs`), the listener slot is released, and
`throw` then re-raises `E` to the caller REGARDLESS of that downstream
absorption, because the re-raise test only checks the promise's own
`on_error`. -/
theorem spec_c3 (fuel : Nat) (h : Heap) (r w oe : Ref) (g : Fn) (E : Exc) (v : Val)
    (f1 : Option Ref) (a1 : List Val) (k1 : KW) (rd1 fl1 : Bool)
    (v1 : Option (List Val × KW)) (rs1 : Option Exc) (lv1 : Option (List Ref))
    (f2 : Option Ref) (a2 : List Val) (k2 : KW) (rd2 fl2 : Bool)
    (v2 : Option (List Val × KW)) (rs2 : Option Exc) (sv2 : Option Ref)
    (lv2 : Option (List Ref))
    (hr : hGet h r = some (.prom (PromObj.mk f1 a1 k1 rd1 fl1 false v1 rs1 (some w) lv1 Option.none)))
    (hwr : w ≠ r) (hoer : oe ≠ r) (hoew : oe ≠ w)
    (hw : hGet h w = some (.prom (PromObj.mk f2 a2 k2 rd2 fl2 false v2 rs2 sv2 lv2 (some oe))))
    (hoeg : hGet h oe = some (.plain g))
    (hg : g (a2 ++ [Val.exc E]) k2 = .ok v) :
    throwRef (fuel+3) h r (some E) Option.none true =
      some (hSet (hSet (hSet h r (.prom (PromObj.mk f1 a1 k1 rd1 true false v1 (some E) (some w) lv1 Option.none)))
              w (.prom (PromObj.mk f2 a2 k2 rd2 true false v2 (some E) sv2 lv2 (some oe))))
            r (.prom (PromObj.mk f1 a1 k1 rd1 true false v1 (some E) Option.none lv1 Option.none)),
        [Event.call oe (a2 ++ [Val.exc E]) k2], .error E) := by
  have h1eq : hGet (hSet h r (.prom (PromObj.mk f1 a1 k1 rd1 true false v1 (some E) (some w) lv1 Option.none))) w =
      some (.prom (PromObj.mk f2 a2 k2 rd2 fl2 false v2 rs2 sv2 lv2 (some oe))) := by
    rw [hGet_hSet_ne _ _ _ _ hwr]; exact hw
  have h2oe : hGet (hSet (hSet h r (.prom (PromObj.mk f1 a1 k1 rd1 true false v1 (some E) (some w) lv1 Option.none)))
      w (.prom (PromObj.mk f2 a2 k2 rd2 true false v2 (some E) sv2 lv2 (some oe)))) oe = some (.plain g) := by
    rw [hGet_hSet_ne _ _ _ _ hoew, hGet_hSet_ne _ _ _ _ hoer]; exact hoeg
  have hpa1 : promAt (hSet h r (.prom (PromObj.mk f1 a1 k1 rd1 true false v1 (some E) (some w) lv1 Option.none))) r =
      some (PromObj.mk f1 a1 k1 rd1 true false v1 (some E) (some w) lv1 Option.none) := promAt_hSet_self _ _ _
  have hpa2 : promAt (hSet (hSet h r (.prom (PromObj.mk f1 a1 k1 rd1 true false v1 (some E) (some w) lv1 Option.none)))
      w (.prom (PromObj.mk f2 a2 k2 rd2 true false v2 (some E) sv2 lv2 (some oe)))) r =
      some (PromObj.mk f1 a1 k1 rd1 true false v1 (some E) (some w) lv1 Option.none) := by
    rw [promAt_hSet_ne _ _ _ _ (Ne.symm hwr)]; exact hpa1
  simp only [throwRef]
  rw [show fuel + 3 = (fuel+2)+1 from rfl, exec.eq_7, hr]
  simp only [Bool.false_eq_true, if_false]
  rw [show fuel + 2 = (fuel+1)+1 from rfl]
  rw [exec.eq_10, hr]
  simp only [Bool.false_eq_true, if_false]
  rw [hpa1]
  simp only []
  rw [exec.eq_10, h1eq]
  simp only [Bool.false_eq_true, if_false]
  rw [exec.eq_2, h2oe]
  simp only [hg, optExcVal]
  rw [hpa2]
  simp [promAt_hSet_self]

end Vine

namespace Vine

def c3hw : Heap :=
  [(1, .plain c3sink),
   (3, .prom (PromObj.mk Option.none [] [] false false false Option.none Option.none (some 4) Option.none Option.none)),
   (4, .prom (PromObj.mk Option.none [] [] false false false Option.none Option.none Option.none Option.none (some 1)))]

theorem spec_c3_witness :
    throwRef 3 c3hw 3 (some (.userExc 0)) Option.none true =
      some (hSet (hSet (hSet c3hw 3
              (.prom (PromObj.mk Option.none [] [] false true false Option.none (some (.userExc 0)) (some 4) Option.none Option.none)))
            4 (.prom (PromObj.mk Option.none [] [] false true false Option.none (some (.userExc 0)) Option.none Option.none (some 1))))
          3 (.prom (PromObj.mk Option.none [] [] false true false Option.none (some (.userExc 0)) Option.none Option.none Option.none)),
        [Event.call 1 [Val.exc (.userExc 0)] []], .error (.userExc 0)) :=
  spec_c3 0 c3hw 3 4 1 c3sink (.userExc 0) Val.none
    Option.none [] [] false false Option.none Option.none Option.none
    Option.none [] [] false false Option.none Option.none Option.none Option.none
    rfl (by decide) (by decide) (by decide) rfl rfl rfl

end Vine
namespace Vine

/-- The chained barrier callback for the C4 scenario. -/
def c4sink : Fn := fun _ _ => .ok .none

/-- Three pending upstream promises and the callback. -/
def c4h0 : Heap := [(1, .prom bareProm), (2, .prom bareProm), (3, .prom bareProm), (4, .plain c4sink)]

/-- `barrier([p1, p2, p3]).then(cb)`: the constructor allocates the
internal promise at 5 and the barrier at 6; `then` on the barrier is
delegated to the internal promise, so the callback lands in its single
slot. -/
def c4init : Option (Heap × List Event) :=
  (barrNew 20 c4h0 [1, 2, 3] [] [] Option.none).bind (fun x =>
    (thenRef 20 x.1 6 4 Option.none Option.none).map (fun y => (y.1, ([] : List Event))))

/-- Fire the upstream promise at `r` and accumulate the trace. -/
def c4step (s : Option (Heap × List Event)) (r : Ref) : Option (Heap × List Event) :=
  s.bind (fun x => (callRef 20 x.1 r [] []).map (fun y => (y.1, x.2 ++ y.2.1)))

/-- How often the chained callback (object 4) has been invoked. -/
def c4cbCount (s : Option (Heap × List Event)) : Option Nat :=
  s.map (fun x => (x.2.filter (fun e => match e with | .call t _ _ => t == 4)).length)

/-- The barrier's `ready` flag (read from the internal promise at 5). -/
def c4ready (s : Option (Heap × List Event)) : Option Bool :=
  s.bind (fun x => (promAt x.1 5).map PromObj.ready)

/-- C4: one `barrier.__call__` step, and the barrier-basic scenario.
(a) an upstream firing while the barrier is neither ready nor cancelled
and not finalized increments `_value` and does not fire; (b) likewise when
finalized but the incremented count is still below `size`; (c) when
finalized and the incremented count reaches `size`, the barrier sets the
internal promise's `ready` flag and fires it with the barrier's OWN bound
`args`/`kwargs` — the upstream invocation's arguments never reach it; (d)
once `ready` is true a further invocation is a no-op (heap unchanged);
(e) in the `barrier([p1,p2,p3]).then(cb)` scenario, firing `p1`, `p2`
leaves the barrier not ready, firing `p3` makes it ready, and over the
whole run — including extra calls to the already-fired `p1` and `p3` —
the chained callback fires exactly once. -/
theorem spec_c4 :
    (∀ (fuel : Nat) (h : Heap) (b : Ref) (args : List Val) (kw : KW)
       (pR : Ref) (ba : List Val) (bk : KW) (bv bs : Nat)
       (fi : Option Ref) (ai : List Val) (ki : KW) (fli : Bool)
       (vi : Option (List Val × KW)) (rsi : Option Exc) (svi : Option Ref)
       (lvi : Option (List Ref)) (oei : Option Ref),
      hGet h b = some (.barr (BarObj.mk pR ba bk bv bs false)) →
      promAt h pR = some (PromObj.mk fi ai ki false fli false vi rsi svi lvi oei) →
      callRef (fuel+1) h b args kw =
        some (hSet h b (.barr (BarObj.mk pR ba bk (bv+1) bs false)),
          [Event.call b args kw], .ok (.val Option.none))) ∧
    (∀ (fuel : Nat) (h : Heap) (b : Ref) (args : List Val) (kw : KW)
       (pR : Ref) (ba : List Val) (bk : KW) (bv bs : Nat)
       (fi : Option Ref) (ai : List Val) (ki : KW) (fli : Bool)
       (vi : Option (List Val × KW)) (rsi : Option Exc) (svi : Option Ref)
       (lvi : Option (List Ref)) (oei : Option Ref),
      hGet h b = some (.barr (BarObj.mk pR ba bk bv bs true)) →
      promAt h pR = some (PromObj.mk fi ai ki false fli false vi rsi svi lvi oei) →
      bv + 1 < bs →
      callRef (fuel+1) h b args kw =
        some (hSet h b (.barr (BarObj.mk pR ba bk (bv+1) bs true)),
          [Event.call b args kw], .ok (.val Option.none))) ∧
    (∀ (fuel : Nat) (h : Heap) (b : Ref) (args : List Val) (kw : KW)
       (pR : Ref) (ba : List Val) (bk : KW) (bv bs : Nat)
       (fi : Option Ref) (ai : List Val) (ki : KW) (fli : Bool)
       (vi : Option (List Val × KW)) (rsi : Option Exc) (svi : Option Ref)
       (lvi : Option (List Ref)) (oei : Option Ref)
       (h2 : Heap) (tr2 : List Event) (out2 : Except Exc Out),
      hGet h b = some (.barr (BarObj.mk pR ba bk bv bs true)) →
      promAt h pR = some (PromObj.mk fi ai ki false fli false vi rsi svi lvi oei) →
      bs ≤ bv + 1 → pR ≠ b →
      callRef fuel (hSet (hSet h b (.barr (BarObj.mk pR ba bk (bv+1) bs true)))
          pR (.prom (PromObj.mk fi ai ki true fli false vi rsi svi lvi oei)))
        pR ba bk = some (h2, tr2, out2) →
      callRef (fuel+1) h b args kw =
        some (h2, Event.call b args kw :: tr2,
          match out2 with
          | .ok _ => .ok (.val Option.none)
          | .error e => .error e)) ∧
    (∀ (fuel : Nat) (h : Heap) (b : Ref) (args : List Val) (kw : KW)
       (pR : Ref) (ba : List Val) (bk : KW) (bv bs : Nat) (bf : Bool)
       (fi : Option Ref) (ai : List Val) (ki : KW) (fli cli : Bool)
       (vi : Option (List Val × KW)) (rsi : Option Exc) (svi : Option Ref)
       (lvi : Option (List Ref)) (oei : Option Ref),
      hGet h b = some (.barr (BarObj.mk pR ba bk bv bs bf)) →
      promAt h pR = some (PromObj.mk fi ai ki true fli cli vi rsi svi lvi oei) →
      callRef (fuel+1) h b args kw = some (h, [Event.call b args kw], .ok (.val Option.none))) ∧
    (c4ready (c4step (c4step c4init 1) 2) = some false ∧
     c4ready (c4step (c4step (c4step c4init 1) 2) 3) = some true ∧
     c4cbCount (c4step (c4step (c4step (c4step (c4step c4init 1) 2) 3) 1) 3) = some 1) := by
  refine ⟨?_, ?_, ?_, ?_, by decide, by decide, by decide⟩
  · intro fuel h b args kw pR ba bk bv bs fi ai ki fli vi rsi svi lvi oei hb hip
    simp only [callRef]
    rw [exec.eq_2, hb]
    simp only [hip]
    simp
  · intro fuel h b args kw pR ba bk bv bs fi ai ki fli vi rsi svi lvi oei hb hip hlt
    have hc : decide (bs ≤ bv + 1) = false := decide_eq_false (Nat.not_le.mpr hlt)
    simp only [callRef]
    rw [exec.eq_2, hb]
    simp only [hip]
    simp [hc]
  · intro fuel h b args kw pR ba bk bv bs fi ai ki fli vi rsi svi lvi oei h2 tr2 out2 hb hip hle hbp hfire
    have hc : decide (bs ≤ bv + 1) = true := decide_eq_true hle
    have hip1 : promAt (hSet h b (.barr (BarObj.mk pR ba bk (bv+1) bs true))) pR =
        some (PromObj.mk fi ai ki false fli false vi rsi svi lvi oei) := by
      rw [promAt_hSet_ne _ _ _ _ hbp]; exact hip
    simp only [callRef] at hfire ⊢
    rw [exec.eq_2, hb]
    simp only [hip]
    simp only [Bool.not_false, Bool.and_self, if_true, hc, Bool.and_true]
    rw [hip1]
    simp only [hfire]
  · intro fuel h b args kw pR ba bk bv bs bf fi ai ki fli cli vi rsi svi lvi oei hb hip
    simp only [callRef]
    rw [exec.eq_2, hb]
    simp only [hip]
    simp

end Vine

namespace Vine

def c4wh : Heap := [(5, .prom bareProm), (6, .barr (BarObj.mk 5 [] [] 0 3 false))]
def c4whf : Heap := [(5, .prom bareProm), (6, .barr (BarObj.mk 5 [] [] 0 3 true))]
def c4whf2 : Heap := [(5, .prom bareProm), (6, .barr (BarObj.mk 5 [] [] 2 3 true))]
def c4whr : Heap := [(5, .prom { bareProm with ready := true }), (6, .barr (BarObj.mk 5 [] [] 3 3 true))]

theorem spec_c4_witness :
    callRef 6 c4wh 6 [Val.nat 1] [] =
      some (hSet c4wh 6 (.barr (BarObj.mk 5 [] [] 1 3 false)),
        [Event.call 6 [Val.nat 1] []], .ok (.val Option.none)) ∧
    callRef 6 c4whf 6 [] [] =
      some (hSet c4whf 6 (.barr (BarObj.mk 5 [] [] 1 3 true)),
        [Event.call 6 [] []], .ok (.val Option.none)) ∧
    callRef 3 c4whf2 6 [] [] =
      some ([(5, Obj.prom (PromObj.mk Option.none [] [] true false false (some ([], [])) Option.none Option.none Option.none Option.none)),
             (6, Obj.barr (BarObj.mk 5 [] [] 3 3 true))],
        [Event.call 6 [] [], Event.call 5 [] []], .ok (.val Option.none)) ∧
    callRef 6 c4whr 6 [] [] = some (c4whr, [Event.call 6 [] []], .ok (.val Option.none)) :=
  ⟨spec_c4.1 5 c4wh 6 [Val.nat 1] [] 5 [] [] 0 3 Option.none [] [] false Option.none
      Option.none Option.none Option.none Option.none rfl rfl,
   spec_c4.2.1 5 c4whf 6 [] [] 5 [] [] 0 3 Option.none [] [] false Option.none
      Option.none Option.none Option.none Option.none rfl rfl (by decide),
   spec_c4.2.2.1 2 c4whf2 6 [] [] 5 [] [] 2 3 Option.none [] [] false Option.none
      Option.none Option.none Option.none Option.none _ _ _ rfl rfl (by decide) (by decide) rfl,
   spec_c4.2.2.2.1 5 c4whr 6 [] [] 5 [] [] 3 3 true Option.none [] [] false false
      Option.none Option.none Option.none Option.none Option.none rfl rfl⟩

end Vine

namespace Vine

/-- An already-fulfilled bare promise: `ready`, not failed/cancelled, a
recorded `value`, and empty listener slots (the state a fulfilled
`promise()` leaves behind). -/
def FulfilledBare (h : Heap) (u : Ref) : Prop :=
  ∃ ufn ua uk urs uoe va ks,
    hGet h u = some (.prom (PromObj.mk ufn ua uk true false false (some (va, ks)) urs Option.none Option.none uoe))

/-- The wrapper `then` builds around the barrier, after it has been fired
once by the replay: function-backed on the barrier, fulfilled with the
barrier call's `None` result. -/
def wrapperDone (b : Ref) : PromObj :=
  PromObj.mk (some b) [] [] true false false (some ([Val.none], [])) Option.none Option.none Option.none Option.none

/-- One `add_noincr` (`p.then(self)`) on an already-fulfilled upstream `u`
while the barrier is not yet finalized and its internal promise is neither
ready nor cancelled: `then` wraps the barrier (a `Thenable`) in a fresh
function-backed promise `w := freshRef h`, the replay immediately invokes
`w` with the stored value, which invokes the barrier, which increments
`_value` but does NOT fire (`finalized` is false); `w` is then registered
in `u`'s listener slot.  The internal promise is untouched. -/
theorem baddNoincr_fulfilled (fuel : Nat) (h : Heap) (b u pR : Ref)
    (ba : List Val) (bk : KW) (bv bs : Nat)
    (ifn : Option Ref) (ia : List Val) (ik : KW) (ifl : Bool)
    (iv : Option (List Val × KW)) (irs : Option Exc) (isv : Option Ref)
    (ilv : Option (List Ref)) (ioe : Option Ref)
    (ufn : Option Ref) (ua : List Val) (uk : KW) (urs : Option Exc)
    (uoe : Option Ref) (va : List Val) (ks : KW)
    (hb : hGet h b = some (.barr (BarObj.mk pR ba bk bv bs false)))
    (hip : hGet h pR = some (.prom (PromObj.mk ifn ia ik false ifl false iv irs isv ilv ioe)))
    (hu : hGet h u = some (.prom (PromObj.mk ufn ua uk true false false (some (va, ks)) urs Option.none Option.none uoe)))
    (hub : u ≠ b) :
    baddNoincr (fuel+3) h b u =
      some (hSet (hSet (hSet (hSet (hSet h (freshRef h) (.prom (mkWrapper b Option.none)))
              b (.barr (BarObj.mk pR ba bk (bv+1) bs false)))
            (freshRef h) (.prom (wrapperDone b)))
          (freshRef h) (.prom (wrapperDone b)))
        u (.prom (PromObj.mk ufn ua uk true false false (some (va, ks)) urs (some (freshRef h)) Option.none uoe)),
        [Event.call (freshRef h) va ks, Event.call b (mergeArgs [] va) (mergeKW [] ks)],
        .ok ()) := by
  have hbw : b ≠ freshRef h := ne_freshRef_of_hGet hb
  have huw : u ≠ freshRef h := ne_freshRef_of_hGet hu
  have hpw : pR ≠ freshRef h := ne_freshRef_of_hGet hip
  have hpa : promAt h pR = some (PromObj.mk ifn ia ik false ifl false iv irs isv ilv ioe) := by
    simp [promAt, hip]
  have hth : isThenableAt h b = true := by simp [isThenableAt, hb]
  have hH1b : hGet (hSet h (freshRef h) (.prom (mkWrapper b Option.none))) b =
      some (.barr (BarObj.mk pR ba bk bv bs false)) := by
    rw [hGet_hSet_ne _ _ _ _ hbw]; exact hb
  have hH1w : hGet (hSet h (freshRef h) (.prom (mkWrapper b Option.none))) (freshRef h) =
      some (.prom (mkWrapper b Option.none)) := hGet_hSet_self _ _ _
  have hH1p : promAt (hSet h (freshRef h) (.prom (mkWrapper b Option.none))) pR =
      some (PromObj.mk ifn ia ik false ifl false iv irs isv ilv ioe) := by
    rw [promAt_hSet_ne _ _ _ _ hpw]; exact hpa
  have hHBw : promAt (hSet (hSet h (freshRef h) (.prom (mkWrapper b Option.none))) b
        (.barr (BarObj.mk pR ba bk (bv+1) bs false))) (freshRef h) =
      some (mkWrapper b Option.none) := by
    rw [promAt_hSet_ne _ _ _ _ (Ne.symm hbw)]; simp [promAt, hH1w]
  have hH3u : promAt (hSet (hSet (hSet (hSet h (freshRef h) (.prom (mkWrapper b Option.none))) b (.barr (BarObj.mk pR ba bk (bv+1) bs false))) (freshRef h) (.prom (wrapperDone b))) (freshRef h) (.prom (wrapperDone b))) u =
      some (PromObj.mk ufn ua uk true false false (some (va, ks)) urs Option.none Option.none uoe) := by
    rw [promAt_hSet_ne _ _ _ _ huw, promAt_hSet_ne _ _ _ _ huw, promAt_hSet_ne _ _ _ _ hub,
      promAt_hSet_ne _ _ _ _ huw]
    simp [promAt, hu]
  -- run add_noincr
  rw [baddNoincr, hb]
  simp only [hpa]
  simp only [Bool.not_false, if_true, Bool.false_eq_true, if_false]
  simp only [thenRef]
  rw [show fuel + 3 = (fuel+2)+1 from rfl, exec.eq_17, hu]
  simp only [hth, if_true]
  simp only [Bool.false_eq_true, if_false]
  rw [exec.eq_2, hH1w]
  simp only [mkWrapper, bareProm, wrapperDone] at hH1w hH1b hH1p hHBw hH3u ⊢
  simp only [Bool.false_eq_true, if_false]
  rw [exec.eq_2, hH1b]
  simp only [hH1p]
  simp only [Bool.not_false, Bool.and_self, if_true, Bool.false_and, Bool.and_false, if_false, Bool.false_eq_true]
  simp only [outVal, Option.getD]
  rw [exec.eq_3]
  simp only [hHBw]
  simp only [hH3u]
  simp

end Vine

namespace Vine

theorem mem_heapDom_hSet {h : Heap} {x : Ref} (r : Ref) (o : Obj)
    (hx : x ∈ heapDom h) : x ∈ heapDom (hSet h r o) := by
  induction h with
  | nil => simp [heapDom] at hx
  | cons p t ih =>
      obtain ⟨k, y⟩ := p
      by_cases hk : r = k
      · subst hk
        simpa [hSet, heapDom] using (by simpa [heapDom] using hx)
      · simp only [heapDom, List.map_cons, List.mem_cons] at hx
        rcases hx with h1 | h1
        · simp [hSet, hk, heapDom, h1]
        · have := ih (by simpa [heapDom] using h1)
          simp [hSet, hk, heapDom] at this ⊢
          exact Or.inr this

/-- Running the `extend_noincr` comprehension over a list of
already-fulfilled upstream promises, while the barrier is not finalized
and its internal promise is neither ready nor cancelled: every attachment
replays immediately and bumps `_value` by one, the barrier never fires,
and the internal promise is untouched. -/
theorem baddLoop_fulfilled : ∀ (ups : List Ref) (fuel : Nat) (h : Heap) (b pR : Ref)
    (ba : List Val) (bk : KW) (bv bs : Nat)
    (ifn : Option Ref) (ia : List Val) (ik : KW) (ifl : Bool)
    (iv : Option (List Val × KW)) (irs : Option Exc) (isv : Option Ref)
    (ilv : Option (List Ref)) (ioe : Option Ref),
    hGet h b = some (.barr (BarObj.mk pR ba bk bv bs false)) →
    hGet h pR = some (.prom (PromObj.mk ifn ia ik false ifl false iv irs isv ilv ioe)) →
    ups.Nodup →
    (∀ u ∈ ups, FulfilledBare h u ∧ u ≠ b ∧ u ≠ pR) →
    pR ≠ b →
    ∃ h' tr, baddLoop (fuel+3) h b ups = some (h', tr, .ok ()) ∧
      hGet h' b = some (.barr (BarObj.mk pR ba bk (bv + ups.length) bs false)) ∧
      hGet h' pR = some (.prom (PromObj.mk ifn ia ik false ifl false iv irs isv ilv ioe)) ∧
      (∀ x, x ∈ heapDom h → x ≠ b → (∀ u ∈ ups, x ≠ u) → hGet h' x = hGet h x) ∧
      (∀ x, x ∈ heapDom h → x ∈ heapDom h') := by
  intro ups
  induction ups with
  | nil =>
      intro fuel h b pR ba bk bv bs ifn ia ik ifl iv irs isv ilv ioe hb hip hnd hops hbp
      exact ⟨h, [], by simp [baddLoop], by simpa using hb, hip, fun x _ _ _ => rfl, fun x hx => hx⟩
  | cons u rest ih =>
      intro fuel h b pR ba bk bv bs ifn ia ik ifl iv irs isv ilv ioe hb hip hnd hops hbp
      obtain ⟨hfb, hub, hupr⟩ := hops u (List.mem_cons_self _ _)
      obtain ⟨ufn, ua, uk, urs, uoe, va, ks, hu⟩ := hfb
      have hstep := baddNoincr_fulfilled fuel h b u pR ba bk bv bs ifn ia ik ifl iv irs isv ilv ioe
        ufn ua uk urs uoe va ks hb hip hu hub
      have hbw : b ≠ freshRef h := ne_freshRef_of_hGet hb
      have hpw : pR ≠ freshRef h := ne_freshRef_of_hGet hip
      -- the heap after the step
      set W := freshRef h with hW
      set h4 := hSet (hSet (hSet (hSet (hSet h W (.prom (mkWrapper b Option.none)))
              b (.barr (BarObj.mk pR ba bk (bv+1) bs false)))
            W (.prom (wrapperDone b)))
          W (.prom (wrapperDone b)))
        u (.prom (PromObj.mk ufn ua uk true false false (some (va, ks)) urs (some W) Option.none uoe)) with hh4
      have hb4 : hGet h4 b = some (.barr (BarObj.mk pR ba bk (bv+1) bs false)) := by
        rw [hh4, hGet_hSet_ne _ _ _ _ (Ne.symm hub), hGet_hSet_ne _ _ _ _ hbw,
          hGet_hSet_ne _ _ _ _ hbw, hGet_hSet_self]
      have hip4 : hGet h4 pR = some (.prom (PromObj.mk ifn ia ik false ifl false iv irs isv ilv ioe)) := by
        rw [hh4, hGet_hSet_ne _ _ _ _ (Ne.symm hupr), hGet_hSet_ne _ _ _ _ hpw,
          hGet_hSet_ne _ _ _ _ hpw, hGet_hSet_ne _ _ _ _ hbp, hGet_hSet_ne _ _ _ _ hpw]
        exact hip
      have hnd' : rest.Nodup := (List.nodup_cons.mp hnd).2
      have hops4 : ∀ v ∈ rest, FulfilledBare h4 v ∧ v ≠ b ∧ v ≠ pR := by
        intro v hv
        obtain ⟨⟨vfn, vva, vk, vrs, voe, vva2, vks2, hvget⟩, hvb, hvp⟩ :=
          hops v (List.mem_cons_of_mem _ hv)
        have hvu : v ≠ u := by
          rintro rfl
          exact absurd hv (List.nodup_cons.mp hnd).1
        have hvw : v ≠ W := ne_freshRef_of_hGet hvget
        have hgv : hGet h4 v = hGet h v := by
          rw [hh4, hGet_hSet_ne _ _ _ _ hvu, hGet_hSet_ne _ _ _ _ hvw,
            hGet_hSet_ne _ _ _ _ hvw, hGet_hSet_ne _ _ _ _ hvb, hGet_hSet_ne _ _ _ _ hvw]
        exact ⟨⟨vfn, vva, vk, vrs, voe, vva2, vks2, by rw [hgv]; exact hvget⟩, hvb, hvp⟩
      obtain ⟨h', tr', hloop', hb', hip', hframe', hdom'⟩ :=
        ih fuel h4 b pR ba bk (bv+1) bs ifn ia ik ifl iv irs isv ilv ioe hb4 hip4 hnd' hops4 hbp
      refine ⟨h', [Event.call W va ks, Event.call b (mergeArgs [] va) (mergeKW [] ks)] ++ tr', ?_, ?_, hip', ?_, ?_⟩
      · simp only [baddLoop]
        rw [hstep]
        simp only [hloop']
      · rw [List.length_cons, show bv + (rest.length + 1) = bv + 1 + rest.length from by omega]
        exact hb'
      · intro x hx hxb hxall
        have hxu : x ≠ u := hxall u (List.mem_cons_self _ _)
        have hxw : x ≠ W := Nat.ne_of_lt (lt_freshRef_of_mem_dom hx)
        have hx4 : x ∈ heapDom h4 := by
          rw [hh4]
          exact mem_heapDom_hSet _ _ (mem_heapDom_hSet _ _ (mem_heapDom_hSet _ _
            (mem_heapDom_hSet _ _ (mem_heapDom_hSet _ _ hx))))
        have e1 : hGet h' x = hGet h4 x :=
          hframe' x hx4 hxb (fun v hv => hxall v (List.mem_cons_of_mem _ hv))
        have e2 : hGet h4 x = hGet h x := by
          rw [hh4, hGet_hSet_ne _ _ _ _ hxu, hGet_hSet_ne _ _ _ _ hxw,
            hGet_hSet_ne _ _ _ _ hxw, hGet_hSet_ne _ _ _ _ hxb, hGet_hSet_ne _ _ _ _ hxw]
        rw [e1, e2]
      · intro x hx
        refine hdom' x ?_
        rw [hh4]
        exact mem_heapDom_hSet _ _ (mem_heapDom_hSet _ _ (mem_heapDom_hSet _ _
          (mem_heapDom_hSet _ _ (mem_heapDom_hSet _ _ hx))))

end Vine

namespace Vine

/-- C5: a barrier constructed, with no explicit size and no callback, from a
non-empty duplicate-free list of already-fulfilled promises never fires:
every `then` attachment replays immediately and bumps `_value` up to
`size`, but `finalized` is still false at each of those moments, so the
internal promise stays unready; `finalized` is set to true only afterwards
without re-checking the count, and a later `finalize()` call is a no-op
(empty trace, nothing invoked) because `finalized` is already true, so the
barrier's `ready` flag stays false forever. -/
theorem spec_c5 (fuel fuel2 : Nat) (h : Heap) (ups : List Ref)
    (args : List Val) (kw : KW)
    (hne : ups ≠ []) (hnd : ups.Nodup)
    (hful : ∀ u ∈ ups, FulfilledBare h u) :
    ∃ hF tr b,
      barrNew (fuel+3) h ups args kw Option.none = some (hF, tr, .ok b) ∧
      hGet hF b = some (.barr (BarObj.mk (freshRef h) args kw ups.length ups.length true)) ∧
      (promAt hF (freshRef h)).map PromObj.ready = some false ∧
      ∃ hG, bfinalize fuel2 hF b = some (hG, [], .ok ()) ∧
        (promAt hG (freshRef h)).map PromObj.ready = some false := by
  set pr := freshRef h with hpr
  set h1 := hSet h pr (.prom bareProm) with hh1
  set br := freshRef h1 with hbr
  set h2 := hSet h1 br (.barr (BarObj.mk pr args kw 0 ups.length false)) with hh2
  have hp1 : hGet h1 pr = some (.prom bareProm) := by
    rw [hh1]; exact hGet_hSet_self _ _ _
  have hprbr : pr ≠ br := ne_freshRef_of_hGet hp1
  have hb2 : hGet h2 br = some (.barr (BarObj.mk pr args kw 0 ups.length false)) := by
    rw [hh2]; exact hGet_hSet_self _ _ _
  have hp2 : hGet h2 pr = some (.prom bareProm) := by
    rw [hh2, hGet_hSet_ne _ _ _ _ hprbr]; exact hp1
  have hp2' : hGet h2 pr = some (.prom (PromObj.mk Option.none [] [] false false false Option.none Option.none Option.none Option.none Option.none)) := hp2
  have hops : ∀ u ∈ ups, FulfilledBare h2 u ∧ u ≠ br ∧ u ≠ pr := by
    intro u hu
    obtain ⟨ufn, ua, uk, urs, uoe, va, ks, hg⟩ := hful u hu
    have hupr : u ≠ pr := ne_freshRef_of_hGet hg
    have hu1 : u ∈ heapDom h1 := by
      rw [hh1]; exact mem_heapDom_hSet _ _ (mem_dom_of_hGet hg)
    have hubr : u ≠ br := Nat.ne_of_lt (lt_freshRef_of_mem_dom hu1)
    have hg2 : hGet h2 u = hGet h u := by
      rw [hh2, hGet_hSet_ne _ _ _ _ hubr, hh1, hGet_hSet_ne _ _ _ _ hupr]
    exact ⟨⟨ufn, ua, uk, urs, uoe, va, ks, by rw [hg2]; exact hg⟩, hubr, hupr⟩
  obtain ⟨h3, tr3, hloop, hb3, hip3, hframe, hdom⟩ :=
    baddLoop_fulfilled ups fuel h2 br pr args kw 0 ups.length
      Option.none [] [] false Option.none Option.none Option.none Option.none Option.none
      hb2 hp2' hnd hops hprbr
  have hie : ups.isEmpty = false := by
    cases ups with
    | nil => exact absurd rfl hne
    | cons a l => rfl
  have hpa2 : promAt h2 pr = some bareProm := by simp [promAt, hp2]
  have hext : bextendNoincr (fuel+3) h2 br ups = some (h3, tr3, .ok ()) := by
    rw [bextendNoincr, hb2]
    simp only [hpa2, bareProm, Bool.not_false, if_true]
    exact hloop
  have hbn : barrNew (fuel+3) h ups args kw Option.none =
      some (hSet h3 br (.barr (BarObj.mk pr args kw (0 + ups.length) ups.length true)), tr3, .ok br) := by
    simp only [barrNew, ← hpr, ← hh1, ← hbr, hie, Option.getD_none, Bool.not_false,
      Bool.and_true, decide_True, if_true, ← hh2, Bool.false_eq_true, if_false]
    simp only [hext, hb3, Bool.true_or]
  set hF := hSet h3 br (.barr (BarObj.mk pr args kw (0 + ups.length) ups.length true)) with hhF
  have hFb : hGet hF br = some (.barr (BarObj.mk pr args kw ups.length ups.length true)) := by
    rw [hhF, hGet_hSet_self, Nat.zero_add]
  have hFp : hGet hF pr = some (.prom (PromObj.mk Option.none [] [] false false false Option.none Option.none Option.none Option.none Option.none)) := by
    rw [hhF, hGet_hSet_ne _ _ _ _ hprbr]; exact hip3
  refine ⟨hF, tr3, br, hbn, hFb, by simp [promAt, hFp], ?_⟩
  refine ⟨hSet hF br (.barr (BarObj.mk pr args kw ups.length ups.length true)), ?_, ?_⟩
  · rw [bfinalize, hFb]
    simp only [Bool.not_true, Bool.false_and, Bool.false_eq_true, if_false]
  · rw [promAt_hSet_ne _ _ _ _ hprbr]
    simp [promAt, hFp]

end Vine

namespace Vine

/-- Concrete heap for exercising the barrier construction: two bare
promises already fulfilled with distinct values. -/
def c5h : Heap :=
  [(1, Obj.prom (PromObj.mk Option.none [] [] true false false (some ([Val.nat 7], [])) Option.none Option.none Option.none Option.none)),
   (2, Obj.prom (PromObj.mk Option.none [] [] true false false (some ([Val.nat 8], [])) Option.none Option.none Option.none Option.none))]

theorem spec_c5_witness :
    (([1, 2] : List Ref) ≠ [] ∧ ([1, 2] : List Ref).Nodup) ∧
    (∃ hF tr b,
      barrNew 3 c5h [1, 2] [] [] Option.none = some (hF, tr, .ok b) ∧
      hGet hF b = some (.barr (BarObj.mk (freshRef c5h) [] [] 2 2 true)) ∧
      (promAt hF (freshRef c5h)).map PromObj.ready = some false ∧
      ∃ hG, bfinalize 0 hF b = some (hG, [], .ok ()) ∧
        (promAt hG (freshRef c5h)).map PromObj.ready = some false) :=
  ⟨⟨by decide, by decide⟩,
   spec_c5 0 0 c5h [1, 2] [] [] (by decide) (by decide)
     (fun u hu => by
        fin_cases hu
        · exact ⟨Option.none, [], [], Option.none, Option.none, [Val.nat 7], [], rfl⟩
        · exact ⟨Option.none, [], [], Option.none, Option.none, [Val.nat 8], [], rfl⟩)⟩

end Vine
